import Mathlib

/-!
# tf2_bot_detector: console-line matchers and listener registry

A shallow embedding of `NetworkStatus.cpp` (the three line matchers
`SplitPacketLine`, `NetChannelLatencyLossLine`, `NetChannelPacketsLine`) and of
the listener collection declared in `MainWindow.h`.

Conventions of the embedding:

* a `std::string_view` is a `List Char`, one `Char` per C++ `char`;
* `std::regex_match` is a backtracking matcher over the fragment of ECMAScript
  regular expressions that the three patterns use;
* a C++ `throw` (and a failed `assert`) is `Except.error`; a returned
  `nullptr` is `Except.ok none`; a returned line object is `Except.ok (some _)`.
-/

set_option autoImplicit false

namespace tf2_bot_detector

/-! ## Regular expressions -/

/-- A pattern atom: it consumes exactly one character. -/
inductive Atom where
  /-- An ordinary character, matching itself. -/
  | chr (c : Char)
  /-- The class escape `\d`. -/
  | digit
  /-- The wildcard `.`, every character but a line terminator. -/
  | dot
  /-- A bracket expression, given by its inclusive ranges. -/
  | cls (ranges : List (Char × Char))

/-- Whether the atom accepts the character. -/
def Atom.test : Atom → Char → Bool
  | .chr c, x => x == c
  | .digit, x => decide (48 ≤ x.toNat) && decide (x.toNat ≤ 57)
  | .dot, x => !(x == '\n' || x == '\r' || x == '\u2028' || x == '\u2029')
  | .cls ranges, x => ranges.any (fun r => decide (r.1.toNat ≤ x.toNat) && decide (x.toNat ≤ r.2.toNat))

/-- The regular expressions of `NetworkStatus.cpp`: literal text, `a+` and
`a{n}` over an atom, concatenation and capturing groups. -/
inductive Re where
  /-- A run of ordinary characters. -/
  | lit (s : List Char)
  /-- Greedy `a+`. -/
  | plus (a : Atom)
  /-- Counted repetition `a{n}`. -/
  | rep (n : Nat) (a : Atom)
  /-- Concatenation. -/
  | seq (r s : Re)
  /-- The capturing group with index `i`. -/
  | group (i : Nat) (r : Re)

/-- Concatenation of a list of expressions. -/
def Re.cat : List Re → Re
  | [] => .lit []
  | [r] => r
  | r :: r' :: rs => .seq r (Re.cat (r' :: rs))

/-- The sub-matches of a `std::match_results`: group index to matched text
(empty for a group that did not take part). -/
abbrev Caps := Nat → List Char

/-- No group has matched yet. -/
def Caps.none : Caps := fun _ => []

/-- Record the text of group `i`. -/
def setCap (caps : Caps) (i : Nat) (w : List Char) : Caps :=
  fun j => if j = i then w else caps j

/-- Remove the literal `l` from the front of the input. -/
def dropLit : List Char → List Char → Option (List Char)
  | [], s => some s
  | _ :: _, [] => none
  | a :: l, c :: cs => if c = a then dropLit l cs else none

/-- The inputs left after `a+`, longest match first (greedy, then backing off
one character at a time). -/
def plusRests (p : Char → Bool) : List Char → List (List Char)
  | [] => []
  | c :: cs => if p c then plusRests p cs ++ [cs] else []

/-- The input left after `a{n}`, if the first `n` characters are all accepted. -/
def repRest (p : Char → Bool) : Nat → List Char → Option (List Char)
  | 0, s => some s
  | _ + 1, [] => none
  | n + 1, c :: cs => if p c then repRest p n cs else none

/-- All ways for the expression to match a prefix of the input, in the order in
which a backtracking matcher explores them; each gives the rest of the input
and the sub-matches recorded so far. -/
def Re.run : Re → List Char → Caps → List (List Char × Caps)
  | .lit l, s, caps =>
    match dropLit l s with
    | some rest => [(rest, caps)]
    | none => []
  | .plus a, s, caps => (plusRests a.test s).map (fun rest => (rest, caps))
  | .rep n a, s, caps =>
    match repRest a.test n s with
    | some rest => [(rest, caps)]
    | none => []
  | .seq r r', s, caps => (r.run s caps).flatMap (fun o => r'.run o.1 o.2)
  | .group i r, s, caps =>
    (r.run s caps).map (fun o => (o.1, setCap o.2 i (s.take (s.length - o.1.length))))

/-- The call `std::regex_match(text.begin(), text.end(), result, re)`: the first way to match
the whole text, if there is one, and its sub-matches. -/
def regex_match (re : Re) (text : List Char) : Option Caps :=
  ((re.run text Caps.none).find? (fun o => o.1.isEmpty)).map Prod.snd

/-- Declarative meaning of an expression: `re.Matches w c c'` says that `re`
matches exactly the word `w`, turning the sub-matches `c` into `c'`. -/
def Re.Matches : Re → List Char → Caps → Caps → Prop
  | .lit l, w, c, c' => w = l ∧ c' = c
  | .plus a, w, c, c' => w ≠ [] ∧ (∀ x ∈ w, a.test x = true) ∧ c' = c
  | .rep n a, w, c, c' => w.length = n ∧ (∀ x ∈ w, a.test x = true) ∧ c' = c
  | .seq r r', w, c, c' =>
    ∃ w₁ w₂ c₁, w = w₁ ++ w₂ ∧ r.Matches w₁ c c₁ ∧ r'.Matches w₂ c₁ c'
  | .group i r, w, c, c' => ∃ c₁, r.Matches w c c₁ ∧ c' = setCap c₁ i w

/-! ## Failures and numeric conversion -/

/-- The ways a matcher or printer of `NetworkStatus.cpp` ends without
returning: a thrown `std::runtime_error`, or a failed `assert`. -/
inductive Failure where
  /-- `throw std::runtime_error("Unknown socket type ...")` in `SplitPacketLine::TryParse`. -/
  | unknownSocketType (socket : List Char)
  /-- The exception of `from_chars_throw` for the given sub-match. -/
  | fromCharsFailed (field : List Char)
  /-- `throw std::runtime_error("Invalid SocketType")` in `SplitPacketLine::Print`. -/
  | invalidSocketType
  /-- A failed `assert`, in a build that keeps assertions. -/
  | assertionFailed
  deriving DecidableEq, Repr

/-- Whether the failure is a C++ exception (as opposed to an aborted assertion). -/
def Failure.isException : Failure → Bool
  | .assertionFailed => false
  | _ => true

/-- The number written by a run of decimal digits. -/
def decimalValue (digits : List Char) : Nat :=
  digits.foldl (fun acc d => 10 * acc + (d.toNat - 48)) 0

/-- Modelled from the spec: `from_chars_throw` is declared in `RegexHelpers.h`,
which is not among the sources. Following its name and section 7 of the
specification (a field that fails to convert is a decode failure), it runs
`std::from_chars` on the sub-match and throws when the conversion reports an
error: no leading digit, or a value above `max`, the largest value of the
target integer type. -/
def from_chars_throw (max : Nat) (field : List Char) : Except Failure Nat :=
  let digits := field.takeWhile Atom.digit.test
  if digits.isEmpty then .error (.fromCharsFailed field)
  else if decimalValue digits ≤ max then .ok (decimalValue digits)
  else .error (.fromCharsFailed field)

/-! ## Split packets -/

/-- What the sources leave open: the integer types of the members of
`SplitPacket` and the initial value of `m_TotalSize` (declared in
`NetworkStatus.h`), given by the largest value of each member, and whether the
build defines `NDEBUG`. -/
structure Build where
  indexMax : Nat
  countMax : Nat
  sequenceMax : Nat
  sizeMax : Nat
  mtuMax : Nat
  totalSizeInit : Nat
  ndebug : Bool
  deriving DecidableEq, Repr

/-- The enumeration `SocketType`; `other` stands for any value the six
enumerators used in `NetworkStatus.cpp` do not cover. -/
inductive SocketType where
  | Client
  | Server
  | HLTV
  | Matchmaking
  | SystemLink
  | LAN
  | other (value : Nat)
  deriving DecidableEq, Repr

/-- The struct `SplitPacket`. -/
structure SplitPacket where
  m_SocketType : SocketType
  m_Index : Nat
  m_Count : Nat
  m_Sequence : Nat
  m_Size : Nat
  m_MTU : Nat
  m_Address : List Char
  m_TotalSize : Nat
  deriving DecidableEq, Repr

/-- Time stamps; the matchers only store them. -/
abbrev time_point_t := Nat

/-- The class `SplitPacketLine`: the time stamp of its base class and the packet. -/
structure SplitPacketLine where
  m_Timestamp : time_point_t
  m_Packet : SplitPacket
  deriving DecidableEq, Repr

/-- The bracket expression `[0-9.:a-fA-F]`. -/
def addressClass : Atom :=
  .cls [('0', '9'), ('.', '.'), (':', ':'), ('a', 'f'), ('A', 'F')]

/-- The sub-pattern `[0-9.:a-fA-F]+:\d+` of the split-packet pattern. -/
def addressPattern : Re :=
  Re.cat [.plus addressClass, .lit ":".toList, .plus .digit]

/-- The pattern of `SplitPacketLine::TryParse`:
`<-- \[(.{3})\] Split packet +(\d+)\/ +(\d+) seq +(\d+) size +(\d+) mtu +(\d+) from ([0-9.:a-fA-F]+:\d+)`. -/
def SplitPacketLine.s_Regex : Re :=
  Re.cat [
    .lit "<-- [".toList, .group 1 (.rep 3 .dot),
    .lit "] Split packet".toList, .plus (.chr ' '), .group 2 (.plus .digit),
    .lit "/".toList, .plus (.chr ' '), .group 3 (.plus .digit),
    .lit " seq".toList, .plus (.chr ' '), .group 4 (.plus .digit),
    .lit " size".toList, .plus (.chr ' '), .group 5 (.plus .digit),
    .lit " mtu".toList, .plus (.chr ' '), .group 6 (.plus .digit),
    .lit " from ".toList,
    .group 7 addressPattern]

/-- The chain of comparisons that turns the socket token into a `SocketType`. -/
def SplitPacketLine.socketTypeOf (socket : List Char) : Except Failure SocketType :=
  if socket = "cl ".toList then .ok .Client
  else if socket = "sv ".toList then .ok .Server
  else if socket = "htv".toList then .ok .HLTV
  else if socket = "mat".toList then .ok .Matchmaking
  else if socket = "lnk".toList then .ok .SystemLink
  else if socket = "lan".toList then .ok .LAN
  else .error (.unknownSocketType socket)

/-- The statement `assert(cond)`: it aborts when the condition is false, unless
the build defines `NDEBUG`. -/
def assert (b : Build) (cond : Bool) : Except Failure Unit :=
  if b.ndebug || cond then .ok () else .error .assertionFailed

/-- The function `SplitPacketLine::TryParse`. -/
def SplitPacketLine.TryParse (b : Build) (text : List Char) (timestamp : time_point_t) :
    Except Failure (Option SplitPacketLine) :=
  match regex_match SplitPacketLine.s_Regex text with
  | some result => do
    let socketType ← SplitPacketLine.socketTypeOf (result 1)
    let index ← from_chars_throw b.indexMax (result 2)
    assert b (decide (index > 0))
    let index := if index > 0 then index - 1 else index
    let count ← from_chars_throw b.countMax (result 3)
    let sequence ← from_chars_throw b.sequenceMax (result 4)
    let size ← from_chars_throw b.sizeMax (result 5)
    let mtu ← from_chars_throw b.mtuMax (result 6)
    pure (some {
      m_Timestamp := timestamp
      m_Packet := {
        m_SocketType := socketType
        m_Index := index
        m_Count := count
        m_Sequence := sequence
        m_Size := size
        m_MTU := mtu
        m_Address := result 7
        m_TotalSize := b.totalSizeInit } })
  | none => pure none

/-- What `printf` reads for a `%i` conversion from an integer argument: its low
32 bits, as a signed `int`. -/
def toInt (value : Nat) : Int :=
  if value % 4294967296 < 2147483648 then ((value % 4294967296 : Nat) : Int)
  else ((value % 4294967296 : Nat) : Int) - 4294967296

/-- The conversion `%Ni` of `printf`: the decimal digits of the value, after a
minus sign when it is negative, right-aligned with blanks to at least `width`
characters. -/
def formatInt (width : Nat) (value : Int) : List Char :=
  let digits := Nat.toDigits 10 value.natAbs
  let number := if value < 0 then '-' :: digits else digits
  List.replicate (width - number.length) ' ' ++ number

/-- The function `SplitPacketLine::Print`, returning the text it hands to
`ImGui::Text`. -/
def SplitPacketLine.Print (line : SplitPacketLine) : Except Failure (List Char) := do
  let socketType ←
    match line.m_Packet.m_SocketType with
    | .Client => pure "cl ".toList
    | .Server => pure "sv ".toList
    | .HLTV => pure "htv".toList
    | .Matchmaking => pure "mat".toList
    | .SystemLink => pure "lnk".toList
    | .LAN => pure "lan".toList
    | .other _ => throw Failure.invalidSocketType
  pure ("--> [".toList ++ socketType ++ "] Split packet ".toList
    ++ formatInt 4 (toInt (line.m_Packet.m_Index + 1)) ++ "/".toList
    ++ formatInt 4 (toInt line.m_Packet.m_Count) ++ " seq ".toList
    ++ formatInt 5 (toInt line.m_Packet.m_Sequence) ++ " size ".toList
    ++ formatInt 4 (toInt line.m_Packet.m_Size) ++ " mtu ".toList
    ++ formatInt 4 (toInt line.m_Packet.m_MTU) ++ " to ".toList
    ++ line.m_Packet.m_Address ++ " [ total ".toList
    ++ formatInt 4 (toInt line.m_Packet.m_TotalSize) ++ " ]".toList)

/-! ## Net-channel lines -/

/-- The C++ type `float` and the conversion of a sub-match into it, which the
sources take from `from_chars_throw` (`RegexHelpers.h`) and the standard
library: `from_chars text` is `none` when the conversion reports an error. -/
structure FloatModel where
  float : Type
  from_chars : List Char → Option float

/-- Modelled from the spec: `from_chars_throw` (`RegexHelpers.h`, not among the
sources) on a `float` target. As for the integer targets, it throws when the
conversion reports an error. -/
def FloatModel.from_chars_throw (F : FloatModel) (field : List Char) : Except Failure F.float :=
  match F.from_chars field with
  | some v => .ok v
  | none => .error (.fromCharsFailed field)

/-- The sub-pattern `\d+\.\d+` of the net-channel patterns. -/
def decimalPattern : Re :=
  Re.cat [.plus .digit, .lit ".".toList, .plus .digit]

/-- The class `NetChannelLatencyLossLine`. -/
structure NetChannelLatencyLossLine (F : FloatModel) where
  m_Timestamp : time_point_t
  m_Latency : F.float
  m_Loss : F.float

/-- The pattern of `NetChannelLatencyLossLine::TryParse`:
`- latency: (\d+\.\d+), loss (\d+\.\d+)`. -/
def NetChannelLatencyLossLine.s_Regex : Re :=
  Re.cat [
    .lit "- latency: ".toList,
    .group 1 decimalPattern,
    .lit ", loss ".toList,
    .group 2 decimalPattern]

/-- The function `NetChannelLatencyLossLine::TryParse`. -/
def NetChannelLatencyLossLine.TryParse (F : FloatModel) (text : List Char)
    (timestamp : time_point_t) : Except Failure (Option (NetChannelLatencyLossLine F)) :=
  match regex_match NetChannelLatencyLossLine.s_Regex text with
  | some result => do
    let latency ← F.from_chars_throw (result 1)
    let loss ← F.from_chars_throw (result 2)
    pure (some { m_Timestamp := timestamp, m_Latency := latency, m_Loss := loss })
  | none => pure none

/-- The class `NetChannelPacketsLine`. -/
structure NetChannelPacketsLine (F : FloatModel) where
  m_Timestamp : time_point_t
  m_InPerSecond : F.float
  m_OutPerSecond : F.float

/-- The pattern of `NetChannelPacketsLine::TryParse`:
`- packets: in (\d+\.\d+)\/s, out (\d+\.\d+)\/s`. -/
def NetChannelPacketsLine.s_Regex : Re :=
  Re.cat [
    .lit "- packets: in ".toList,
    .group 1 decimalPattern,
    .lit "/s, out ".toList,
    .group 2 decimalPattern,
    .lit "/s".toList]

/-- The function `NetChannelPacketsLine::TryParse`. -/
def NetChannelPacketsLine.TryParse (F : FloatModel) (text : List Char)
    (timestamp : time_point_t) : Except Failure (Option (NetChannelPacketsLine F)) :=
  match regex_match NetChannelPacketsLine.s_Regex text with
  | some result => do
    let inValue ← F.from_chars_throw (result 1)
    let outValue ← F.from_chars_throw (result 2)
    pure (some { m_Timestamp := timestamp, m_InPerSecond := inValue, m_OutPerSecond := outValue })
  | none => pure none

/-! ## The line grammars of the specification -/

/-- Whether `w` is a non-empty run of characters accepted by `p`. -/
def isRun (p : Char → Bool) (w : List Char) : Bool :=
  !w.isEmpty && w.all p

/-- A non-empty run of decimal digits. -/
def isDigits (w : List Char) : Bool := isRun Atom.digit.test w

/-- A non-empty run of blanks. -/
def isBlanks (w : List Char) : Bool := isRun (Atom.chr ' ').test w

/-- The parts of a line of the split-packet grammar
`<-- [SOC] Split packet +N/ +M seq +S size +F mtu +U from ADDR`,
where `ADDR` is `host:port`. -/
structure SplitPacketText where
  socket : List Char
  pad₁ : List Char
  index : List Char
  pad₂ : List Char
  count : List Char
  pad₃ : List Char
  sequence : List Char
  pad₄ : List Char
  size : List Char
  pad₅ : List Char
  mtu : List Char
  host : List Char
  port : List Char
  deriving DecidableEq, Repr

/-- The peer address `host:port` of the line. -/
def SplitPacketText.address (t : SplitPacketText) : List Char :=
  t.host ++ (':' :: t.port)

/-- The line itself. -/
def SplitPacketText.text (t : SplitPacketText) : List Char :=
  "<-- [".toList ++ (t.socket ++ ("] Split packet".toList ++ (t.pad₁ ++ (t.index ++
    ('/' :: (t.pad₂ ++ (t.count ++ (" seq".toList ++ (t.pad₃ ++ (t.sequence ++
    (" size".toList ++ (t.pad₄ ++ (t.size ++ (" mtu".toList ++ (t.pad₅ ++ (t.mtu ++
    (" from ".toList ++ t.address)))))))))))))))))

/-- The parts fit the grammar: a socket token of three characters (none a line
terminator), non-empty blank padding, non-empty decimal numbers, and an address
made of a non-empty host over `[0-9.:a-fA-F]` and a decimal port. -/
def SplitPacketText.wellFormed (t : SplitPacketText) : Bool :=
  t.socket.length == 3 && t.socket.all Atom.dot.test
    && isBlanks t.pad₁ && isDigits t.index
    && isBlanks t.pad₂ && isDigits t.count
    && isBlanks t.pad₃ && isDigits t.sequence
    && isBlanks t.pad₄ && isDigits t.size
    && isBlanks t.pad₅ && isDigits t.mtu
    && isRun addressClass.test t.host && isDigits t.port

/-- The text is a line of the split-packet grammar. -/
def SplitPacketGrammar (text : List Char) : Prop :=
  ∃ t : SplitPacketText, t.wellFormed = true ∧ text = t.text

/-- A decimal float of the net-channel grammars: digits, a dot, digits. -/
structure DecimalText where
  whole : List Char
  fraction : List Char
  deriving DecidableEq, Repr

/-- The text of the number. -/
def DecimalText.text (d : DecimalText) : List Char :=
  d.whole ++ ('.' :: d.fraction)

/-- Both parts are non-empty runs of digits. -/
def DecimalText.wellFormed (d : DecimalText) : Bool :=
  isDigits d.whole && isDigits d.fraction

/-- The line `- latency: L, loss P`. -/
def latencyLossText (l p : List Char) : List Char :=
  "- latency: ".toList ++ (l ++ (", loss ".toList ++ p))

/-- The text is a line of the latency/loss grammar. -/
def LatencyLossGrammar (text : List Char) : Prop :=
  ∃ l p : DecimalText, l.wellFormed = true ∧ p.wellFormed = true ∧
    text = latencyLossText l.text p.text

/-- The line `- packets: in I/s, out O/s`. -/
def packetsText (i o : List Char) : List Char :=
  "- packets: in ".toList ++ (i ++ ("/s, out ".toList ++ (o ++ "/s".toList)))

/-- The text is a line of the packet-rate grammar. -/
def PacketsGrammar (text : List Char) : Prop :=
  ∃ i o : DecimalText, i.wellFormed = true ∧ o.wellFormed = true ∧
    text = packetsText i.text o.text

/-- The sub-matches the split-packet pattern records on the line. -/
def SplitPacketText.caps (t : SplitPacketText) : Caps :=
  setCap (setCap (setCap (setCap (setCap (setCap (setCap Caps.none
    1 t.socket) 2 t.index) 3 t.count) 4 t.sequence) 5 t.size) 6 t.mtu) 7 t.address

/-- The six socket tokens of the specification and the socket kind each names. -/
def socketKinds : List (List Char × SocketType) :=
  [("cl ".toList, .Client), ("sv ".toList, .Server), ("htv".toList, .HLTV),
   ("mat".toList, .Matchmaking), ("lnk".toList, .SystemLink), ("lan".toList, .LAN)]

/-- The six known socket tokens. -/
def knownSocketTokens : List (List Char) :=
  socketKinds.map Prod.fst

/-- Every number of the line is within the range of the member it is stored in. -/
def SplitPacketText.inRange (b : Build) (t : SplitPacketText) : Bool :=
  decide (decimalValue t.index ≤ b.indexMax) && decide (decimalValue t.count ≤ b.countMax)
    && decide (decimalValue t.sequence ≤ b.sequenceMax)
    && decide (decimalValue t.size ≤ b.sizeMax) && decide (decimalValue t.mtu ≤ b.mtuMax)

/-- Every number of the line is at most `INT_MAX`, so that `%i` prints it as it is. -/
def SplitPacketText.withinInt (t : SplitPacketText) : Bool :=
  decide (decimalValue t.index ≤ 2147483647) && decide (decimalValue t.count ≤ 2147483647)
    && decide (decimalValue t.sequence ≤ 2147483647)
    && decide (decimalValue t.size ≤ 2147483647) && decide (decimalValue t.mtu ≤ 2147483647)

/-- The example line of the specification, in its parts:
`<-- [cl ] Split packet   1/   4 seq    12 size  512 mtu 1200 from 10.0.0.5:27015`. -/
def exampleSplitPacket : SplitPacketText where
  socket := "cl ".toList
  pad₁ := "   ".toList
  index := "1".toList
  pad₂ := "   ".toList
  count := "4".toList
  pad₃ := "    ".toList
  sequence := "12".toList
  pad₄ := "  ".toList
  size := "512".toList
  pad₅ := " ".toList
  mtu := "1200".toList
  host := "10.0.0.5".toList
  port := "27015".toList

/-- A build whose `SplitPacket` members are all 16 bits wide and keep assertions. -/
def build16 : Build where
  indexMax := 65535
  countMax := 65535
  sequenceMax := 65535
  sizeMax := 65535
  mtuMax := 65535
  totalSizeInit := 0
  ndebug := false

/-- A build whose `SplitPacket` members all have the widest integer type, 64
bits unsigned, and which keeps assertions. -/
def build64 : Build where
  indexMax := 18446744073709551615
  countMax := 18446744073709551615
  sequenceMax := 18446744073709551615
  sizeMax := 18446744073709551615
  mtuMax := 18446744073709551615
  totalSizeInit := 0
  ndebug := false

/-- An idealised `float` that holds every decimal literal exactly, as the
number written by its digits and the count of digits after the dot:
`0.045` is `(45, 3)`, that is `45 / 10^3`. -/
def exactDecimal : FloatModel where
  float := Nat × Nat
  from_chars := fun w =>
    some (decimalValue (w.filter Atom.digit.test),
      ((w.dropWhile Atom.digit.test).drop 1).length)

/-! ## The line objects and the order of the matchers -/

/-- What a `std::unique_ptr<IConsoleLine>` returned by one of the three matchers
points to. -/
inductive IConsoleLine (F : FloatModel) where
  | splitPacket (line : SplitPacketLine)
  | latencyLoss (line : NetChannelLatencyLossLine F)
  | packets (line : NetChannelPacketsLine F)

/-- A matcher: a `TryParse` function seen through its return type
`std::unique_ptr<IConsoleLine>`. -/
abbrev Matcher (F : FloatModel) :=
  List Char → time_point_t → Except Failure (Option (IConsoleLine F))

/-- The matcher `SplitPacketLine::TryParse`. -/
def splitPacketMatcher (b : Build) (F : FloatModel) : Matcher F :=
  fun text timestamp =>
    match SplitPacketLine.TryParse b text timestamp with
    | .error e => .error e
    | .ok none => .ok none
    | .ok (some line) => .ok (some (.splitPacket line))

/-- The matcher `NetChannelLatencyLossLine::TryParse`. -/
def latencyLossMatcher (F : FloatModel) : Matcher F :=
  fun text timestamp =>
    match NetChannelLatencyLossLine.TryParse F text timestamp with
    | .error e => .error e
    | .ok none => .ok none
    | .ok (some line) => .ok (some (.latencyLoss line))

/-- The matcher `NetChannelPacketsLine::TryParse`. -/
def packetsMatcher (F : FloatModel) : Matcher F :=
  fun text timestamp =>
    match NetChannelPacketsLine.TryParse F text timestamp with
    | .error e => .error e
    | .ok none => .ok none
    | .ok (some line) => .ok (some (.packets line))

/-- The three matchers of `NetworkStatus.cpp`, in the order of the file. -/
def networkMatchers (b : Build) (F : FloatModel) : List (Matcher F) :=
  [splitPacketMatcher b F, latencyLossMatcher F, packetsMatcher F]

/-- Modelled from the spec: the Line Parser Registry (section 4.2), whose code is
not among the sources. It tries the matchers in order and returns the first
result that is not "no match"; a decode failure of a matcher ends the search;
when every matcher returns "no match" the line is unrecognised (`none`). -/
def tryMatchers {F : FloatModel} :
    List (Matcher F) → List Char → time_point_t → Except Failure (Option (IConsoleLine F))
  | [], _, _ => .ok none
  | m :: ms, text, timestamp =>
    match m text timestamp with
    | .error e => .error e
    | .ok (some line) => .ok (some line)
    | .ok none => tryMatchers ms text timestamp

/-! ## The listeners of `MainWindow` -/

/-- An `IConsoleLineListener*`, by its address. -/
abbrev ListenerPtr := Nat

/-- The class `MainWindow`, reduced to its listener collection: the member
`std::set<IConsoleLineListener*> m_ConsoleLineListeners`, given by its elements
in iteration order, which for a `std::set` is the ascending order of the keys. -/
structure MainWindow where
  m_ConsoleLineListeners : List ListenerPtr
  deriving DecidableEq, Repr

/-- The call `std::set::insert`: the key goes to its place in the ascending
order, and a key already present is not inserted again. -/
def setInsert (p : ListenerPtr) : List ListenerPtr → List ListenerPtr
  | [] => [p]
  | q :: qs =>
    if p < q then p :: q :: qs
    else if p = q then q :: qs
    else q :: setInsert p qs

/-- Modelled from the spec: `MainWindow::AddConsoleLineListener` is only declared
in `MainWindow.h`, its body is not among the sources. Registering a listener
inserts it into `m_ConsoleLineListeners`. -/
def MainWindow.AddConsoleLineListener (w : MainWindow) (listener : ListenerPtr) : MainWindow :=
  { w with m_ConsoleLineListeners := setInsert listener w.m_ConsoleLineListeners }

/-- A sequence of `AddConsoleLineListener` calls on a window. -/
def MainWindow.addAll (w : MainWindow) (listeners : List ListenerPtr) : MainWindow :=
  listeners.foldl MainWindow.AddConsoleLineListener w

/-- The order in which a loop over `m_ConsoleLineListeners` visits the listeners. -/
def MainWindow.iterationOrder (w : MainWindow) : List ListenerPtr :=
  w.m_ConsoleLineListeners

/-! ## The socket tokens of a printed line -/

/-- The six socket kinds that `NetworkStatus.cpp` names. -/
def knownSocketKinds : List SocketType :=
  socketKinds.map Prod.snd

/-- The three-character socket token of a printed line: what stands between
the brackets of `--> [SOC] Split packet ...`. -/
def printedToken (out : List Char) : List Char :=
  (out.drop 5).take 3

/-- The example line of the specification with the fragment index `0`:
`<-- [cl ] Split packet   0/   4 seq    12 size  512 mtu 1200 from 10.0.0.5:27015`. -/
def indexZeroSplitPacket : SplitPacketText :=
  { exampleSplitPacket with index := "0".toList }

/-- The build `build16` with `NDEBUG` defined: assertions are compiled out. -/
def build16Release : Build :=
  { build16 with ndebug := true }

/-- The part of a split-packet line behind the closing bracket of the token. -/
def splitPacketRest (t : SplitPacketText) : List Char :=
  " Split packet".toList ++ (t.pad₁ ++ (t.index ++
    ('/' :: (t.pad₂ ++ (t.count ++ (" seq".toList ++ (t.pad₃ ++ (t.sequence ++
    (" size".toList ++ (t.pad₄ ++ (t.size ++ (" mtu".toList ++ (t.pad₅ ++ (t.mtu ++
    (" from ".toList ++ t.address)))))))))))))))

/-! ## Numbers that are not plain decimals -/

/-- A character of a number in the wider sense: a digit, the dot, a sign or an
exponent letter. -/
def isNumberChar (c : Char) : Bool :=
  Atom.digit.test c || c == '.' || c == '+' || c == '-' || c == 'e' || c == 'E'

/-- A number in the wider sense, such as `45`, `-0.5` or `1.0e3`. -/
def isNumberText (w : List Char) : Bool :=
  w.all isNumberChar

/-- The number has no fractional part: it has no dot. -/
def lacksFraction (w : List Char) : Bool :=
  !w.contains '.'

/-- The number starts with a sign. -/
def hasLeadingSign (w : List Char) : Bool :=
  w.head? == some '-' || w.head? == some '+'

/-- The number has an exponent. -/
def hasExponent (w : List Char) : Bool :=
  w.contains 'e' || w.contains 'E'

/-- The number has no fractional part, a leading sign or an exponent. -/
def notPlainDecimal (w : List Char) : Bool :=
  lacksFraction w || hasLeadingSign w || hasExponent w

/-! ## The type `float` -/

/-- A finite, non-negative value of the IEEE-754 binary32 format, the C++ type
`float`: it is given by the number of units of `2^-149`, the least positive
value of the format, that it is worth. -/
structure Binary32 where
  units : Nat
  deriving DecidableEq, Repr

/-- The value is one the format has: `m * 2^e` with a significand `m` below
`2^24` and an exponent `e` from `-149` to `104`, that is `m * 2^s` units with
`s` up to 253. -/
def Binary32.Representable (f : Binary32) : Prop :=
  ∃ m s : Nat, m < 16777216 ∧ s ≤ 253 ∧ f.units = m * 2 ^ s

/-- The greatest finite value `FLT_MAX = (2^24 - 1) * 2^104`, in units. -/
def Binary32.maxUnits : Nat :=
  16777215 * 2 ^ 253

/-- The quotient `a / den` rounded to the nearest integer, a tie going to the
even neighbour. -/
def roundHalfEven (a den : Nat) : Nat :=
  if 2 * (a % den) < den then a / den
  else if den < 2 * (a % den) then a / den + 1
  else if (a / den) % 2 = 0 then a / den else a / den + 1

/-- The least `s'` from `s` on, among the next `fuel` ones, with
`a / d < 2^24 * 2^s'`: the binary exponent at which the quotient has at most 24
significant bits. -/
def findShift (a d : Nat) : Nat → Nat → Option Nat
  | 0, _ => none
  | fuel + 1, s => if a < 16777216 * 2 ^ s * d then some s else findShift a d fuel (s + 1)

/-- The quotient `a / d`, counted in units of `2^-149`, converted to binary32
with rounding to nearest: `none` when the result is beyond `FLT_MAX`, or is zero
although the quotient is not. -/
def Binary32.ofQuotient (a d : Nat) : Option Binary32 :=
  match findShift a d 255 0 with
  | none => none
  | some s =>
    if roundHalfEven a (d * 2 ^ s) * 2 ^ s = 0 ∧ a ≠ 0 then none
    else if Binary32.maxUnits < roundHalfEven a (d * 2 ^ s) * 2 ^ s then none
    else some ⟨roundHalfEven a (d * 2 ^ s) * 2 ^ s⟩

/-- The text read as digits, a dot, digits; `none` for any other text. -/
def DecimalText.ofText (w : List Char) : Option DecimalText :=
  match w.dropWhile Atom.digit.test with
  | '.' :: rest =>
    if isDigits (w.takeWhile Atom.digit.test) && isDigits rest then
      some ⟨w.takeWhile Atom.digit.test, rest⟩
    else none
  | _ => none

/-- The exact value of the decimal `whole.fraction`, in units of `2^-149`, is
`numerator / denominator`: the number written by all its digits, times `2^149`,
over ten to the number of fraction digits. -/
def DecimalText.numerator (d : DecimalText) : Nat :=
  decimalValue (d.whole ++ d.fraction) * 2 ^ 149

/-- The denominator of the exact value, see `DecimalText.numerator`. -/
def DecimalText.denominator (d : DecimalText) : Nat :=
  10 ^ d.fraction.length

/-- Modelled from the spec: the conversion behind `from_chars_throw`
(`RegexHelpers.h`, not among the sources) for a `float` target, on the
sub-matches of `\d+\.\d+` that the net-channel matchers hand to it. As
`std::from_chars` does, it yields the binary32 value nearest the decimal and
reports an error (`none`) when the value is out of the range of `float`. -/
@[reducible] def binary32 : FloatModel where
  float := Binary32
  from_chars := fun w =>
    match DecimalText.ofText w with
    | some d => Binary32.ofQuotient d.numerator d.denominator
    | none => none

/-- The decimal is within the range of `float`: it is zero, or lies between
`FLT_MIN = 2^-126`, the least positive normal value, and `FLT_MAX`. -/
def DecimalText.inFloatRange (d : DecimalText) : Bool :=
  decide (d.numerator = 0)
    || (decide (8388608 * d.denominator ≤ d.numerator)
      && decide (d.numerator ≤ Binary32.maxUnits * d.denominator))

/-- The float `f` is a float nearest the decimal `d`: no value of the format is
closer to `d` than `f` is. (The distances are taken times `denominator`, in units
of `2^-149`; a negative float is farther from a non-negative decimal than
zero is.) -/
def Binary32.IsNearest (f : Binary32) (d : DecimalText) : Prop :=
  f.Representable ∧ ∀ g : Binary32, g.Representable →
    |(f.units : Int) * d.denominator - d.numerator|
      ≤ |(g.units : Int) * d.denominator - d.numerator|

/-! ### The matcher agrees with the declarative meaning -/

theorem dropLit_eq_some {l s rest : List Char} :
    dropLit l s = some rest ↔ s = l ++ rest := by
  induction l generalizing s with
  | nil => simp [dropLit, eq_comm]
  | cons a l ih =>
    cases s with
    | nil => simp [dropLit]
    | cons c cs =>
      by_cases h : c = a
      · simp [dropLit, h, ih]
      · simp [dropLit, h]

theorem mem_plusRests {p : Char → Bool} {s rest : List Char} :
    rest ∈ plusRests p s ↔ ∃ w, w ≠ [] ∧ (∀ x ∈ w, p x = true) ∧ s = w ++ rest := by
  induction s generalizing rest with
  | nil =>
    simp only [plusRests, List.not_mem_nil, false_iff]
    rintro ⟨w, hne, -, heq⟩
    cases w with
    | nil => exact hne rfl
    | cons d w => simp at heq
  | cons c cs ih =>
    cases h : p c with
    | true =>
      simp only [plusRests, h, if_true, List.mem_append, List.mem_singleton, ih]
      constructor
      · rintro (⟨w, _, hw, rfl⟩ | rfl)
        · refine ⟨c :: w, by simp, ?_, by simp⟩
          intro x hx
          rcases List.mem_cons.1 hx with rfl | hx
          · exact h
          · exact hw x hx
        · exact ⟨[c], by simp, by simpa using h, by simp⟩
      · rintro ⟨w, hne, hw, heq⟩
        cases w with
        | nil => exact absurd rfl hne
        | cons d w =>
          simp only [List.cons_append, List.cons.injEq] at heq
          obtain ⟨rfl, rfl⟩ := heq
          cases w with
          | nil => right; simp
          | cons e w =>
            left
            exact ⟨e :: w, by simp, fun x hx => hw x (List.mem_cons_of_mem _ hx), rfl⟩
    | false =>
      simp only [plusRests, h, Bool.false_eq_true, if_false, List.not_mem_nil, false_iff]
      rintro ⟨w, hne, hw, heq⟩
      cases w with
      | nil => exact hne rfl
      | cons d w =>
        simp only [List.cons_append, List.cons.injEq] at heq
        have := hw d (List.mem_cons_self _ _)
        rw [← heq.1, h] at this
        exact Bool.false_ne_true this

theorem repRest_eq_some {p : Char → Bool} {n : Nat} {s rest : List Char} :
    repRest p n s = some rest ↔
      ∃ w, w.length = n ∧ (∀ x ∈ w, p x = true) ∧ s = w ++ rest := by
  induction n generalizing s with
  | zero =>
    simp only [repRest, Option.some.injEq, List.length_eq_zero]
    constructor
    · rintro rfl
      exact ⟨[], rfl, by simp, rfl⟩
    · rintro ⟨w, rfl, -, rfl⟩
      rfl
  | succ n ih =>
    cases s with
    | nil =>
      simp only [repRest, reduceCtorEq, false_iff]
      rintro ⟨w, hlen, _, heq⟩
      cases w with
      | nil => simp at hlen
      | cons d w => simp at heq
    | cons c cs =>
      cases h : p c with
      | true =>
        simp only [repRest, h, if_true, ih]
        constructor
        · rintro ⟨w, hlen, hw, rfl⟩
          refine ⟨c :: w, by simp [hlen], ?_, by simp⟩
          intro x hx
          rcases List.mem_cons.1 hx with rfl | hx
          · exact h
          · exact hw x hx
        · rintro ⟨w, hlen, hw, heq⟩
          cases w with
          | nil => simp at hlen
          | cons d w =>
            simp only [List.cons_append, List.cons.injEq] at heq
            obtain ⟨rfl, rfl⟩ := heq
            exact ⟨w, by simpa using hlen, fun x hx => hw x (List.mem_cons_of_mem _ hx), rfl⟩
      | false =>
        simp only [repRest, h, Bool.false_eq_true, if_false, reduceCtorEq, false_iff]
        rintro ⟨w, hlen, hw, heq⟩
        cases w with
        | nil => simp at hlen
        | cons d w =>
          simp only [List.cons_append, List.cons.injEq] at heq
          have := hw d (List.mem_cons_self _ _)
          rw [← heq.1, h] at this
          exact Bool.false_ne_true this

/-- Every outcome of the matcher is a split of the input into a matched word
and the rest, and every such split is an outcome. -/
theorem mem_run (re : Re) {s rest : List Char} {c c' : Caps} :
    (rest, c') ∈ re.run s c ↔ ∃ w, s = w ++ rest ∧ re.Matches w c c' := by
  induction re generalizing s rest c c' with
  | lit l =>
    simp only [Re.run, Re.Matches]
    cases hd : dropLit l s with
    | none =>
      simp only [List.not_mem_nil, false_iff]
      rintro ⟨w, rfl, rfl, -⟩
      have := (@dropLit_eq_some w (w ++ rest) rest).2 rfl
      simp [this] at hd
    | some r =>
      have hr := dropLit_eq_some.1 hd
      simp only [List.mem_singleton, Prod.mk.injEq]
      constructor
      · rintro ⟨rfl, rfl⟩
        exact ⟨l, hr, rfl, rfl⟩
      · rintro ⟨w, hs, rfl, rfl⟩
        rw [hr] at hs
        exact ⟨(List.append_cancel_left hs).symm, rfl⟩
  | plus a =>
    simp only [Re.run, Re.Matches, List.mem_map, Prod.mk.injEq, mem_plusRests]
    constructor
    · rintro ⟨r, ⟨w, hne, hw, rfl⟩, rfl, rfl⟩
      exact ⟨w, rfl, hne, hw, rfl⟩
    · rintro ⟨w, rfl, hne, hw, rfl⟩
      exact ⟨rest, ⟨w, hne, hw, rfl⟩, rfl, rfl⟩
  | rep n a =>
    simp only [Re.run, Re.Matches]
    cases hd : repRest a.test n s with
    | none =>
      simp only [List.not_mem_nil, false_iff]
      rintro ⟨w, rfl, hlen, hw, -⟩
      have := (@repRest_eq_some a.test n (w ++ rest) rest).2
        ⟨w, hlen, hw, rfl⟩
      simp [this] at hd
    | some r =>
      obtain ⟨w₀, hlen₀, hw₀, hs₀⟩ := repRest_eq_some.1 hd
      simp only [List.mem_singleton, Prod.mk.injEq]
      constructor
      · rintro ⟨rfl, rfl⟩
        exact ⟨w₀, hs₀, hlen₀, hw₀, rfl⟩
      · rintro ⟨w, hs, hlen, hw, rfl⟩
        have := (@repRest_eq_some a.test n s rest).2
          ⟨w, hlen, hw, hs⟩
        rw [hd] at this
        exact ⟨(Option.some.inj this).symm, rfl⟩
  | seq r r' ih ih' =>
    simp only [Re.run, Re.Matches, List.mem_flatMap, Prod.exists]
    constructor
    · rintro ⟨m, c₁, hm, ho⟩
      obtain ⟨w₁, rfl, h₁⟩ := ih.1 hm
      obtain ⟨w₂, rfl, h₂⟩ := ih'.1 ho
      exact ⟨w₁ ++ w₂, by simp, w₁, w₂, c₁, rfl, h₁, h₂⟩
    · rintro ⟨w, rfl, w₁, w₂, c₁, rfl, h₁, h₂⟩
      exact ⟨w₂ ++ rest, c₁, ih.2 ⟨w₁, by simp, h₁⟩, ih'.2 ⟨w₂, rfl, h₂⟩⟩
  | group i r ih =>
    simp only [Re.run, Re.Matches, List.mem_map, Prod.mk.injEq, Prod.exists]
    constructor
    · rintro ⟨m, c₁, hm, rfl, rfl⟩
      obtain ⟨w, rfl, h⟩ := ih.1 hm
      exact ⟨w, rfl, c₁, h, by simp⟩
    · rintro ⟨w, rfl, c₁, h, rfl⟩
      exact ⟨rest, c₁, ih.2 ⟨w, rfl, h⟩, rfl, by simp⟩

/-- A successful `regex_match` is a match of the whole text. -/
theorem regex_match_sound {re : Re} {text : List Char} {c : Caps}
    (h : regex_match re text = some c) : re.Matches text Caps.none c := by
  unfold regex_match at h
  obtain ⟨o, ho, rfl⟩ := Option.map_eq_some.1 h
  have hemp := List.find?_some ho
  have hmem := List.mem_of_find?_eq_some ho
  obtain ⟨rest, c'⟩ := o
  obtain ⟨w, hw, hm⟩ := (mem_run re).1 hmem
  have : rest = [] := by simpa using hemp
  subst this
  simpa [hw] using hm

/-- The call `regex_match` fails exactly when no match of the whole text exists. -/
theorem regex_match_eq_none {re : Re} {text : List Char} :
    regex_match re text = none ↔ ∀ c, ¬ re.Matches text Caps.none c := by
  unfold regex_match
  rw [Option.map_eq_none', List.find?_eq_none]
  constructor
  · intro h c hm
    exact h ([], c) ((mem_run re).2 ⟨text, by simp, hm⟩) (by simp)
  · rintro h ⟨rest, c⟩ hmem hemp
    obtain ⟨w, hw, hm⟩ := (mem_run re).1 hmem
    have : rest = [] := by simpa using hemp
    subst this
    exact h c (by simpa [hw] using hm)

/-- When all matches of the whole text record the same sub-matches,
`regex_match` returns them. -/
theorem regex_match_complete {re : Re} {text : List Char} {c : Caps}
    (h : re.Matches text Caps.none c)
    (huniq : ∀ c', re.Matches text Caps.none c' → c' = c) :
    regex_match re text = some c := by
  cases hr : regex_match re text with
  | none => exact absurd h (regex_match_eq_none.1 hr c)
  | some c' => rw [huniq c' (regex_match_sound hr)]

/-! ### Unfolding the meaning of the patterns -/

theorem isRun_iff {p : Char → Bool} {w : List Char} :
    isRun p w = true ↔ w ≠ [] ∧ ∀ x ∈ w, p x = true := by
  cases w <;> simp [isRun]

theorem Matches_lit_seq {l : List Char} {r : Re} {w : List Char} {c c' : Caps} :
    (Re.seq (.lit l) r).Matches w c c' ↔ ∃ w₂, w = l ++ w₂ ∧ r.Matches w₂ c c' := by
  simp only [Re.Matches]
  constructor
  · rintro ⟨w₁, w₂, c₁, rfl, ⟨rfl, rfl⟩, h⟩
    exact ⟨w₂, rfl, h⟩
  · rintro ⟨w₂, rfl, h⟩
    exact ⟨l, w₂, c, rfl, ⟨rfl, rfl⟩, h⟩

theorem Matches_plus_seq {a : Atom} {r : Re} {w : List Char} {c c' : Caps} :
    (Re.seq (.plus a) r).Matches w c c' ↔
      ∃ w₁ w₂, w = w₁ ++ w₂ ∧ isRun a.test w₁ = true ∧ r.Matches w₂ c c' := by
  simp only [Re.Matches, isRun_iff]
  constructor
  · rintro ⟨w₁, w₂, c₁, rfl, ⟨hne, hall, rfl⟩, h⟩
    exact ⟨w₁, w₂, rfl, ⟨hne, hall⟩, h⟩
  · rintro ⟨w₁, w₂, rfl, ⟨hne, hall⟩, h⟩
    exact ⟨w₁, w₂, c, rfl, ⟨hne, hall, rfl⟩, h⟩

theorem Matches_plus {a : Atom} {w : List Char} {c c' : Caps} :
    (Re.plus a).Matches w c c' ↔ isRun a.test w = true ∧ c' = c := by
  simp only [Re.Matches, isRun_iff, and_assoc]

theorem Matches_group_seq {i : Nat} {r r' : Re} {w : List Char} {c c' : Caps} :
    (Re.seq (.group i r) r').Matches w c c' ↔
      ∃ w₁ w₂ c₁, w = w₁ ++ w₂ ∧ r.Matches w₁ c c₁ ∧ r'.Matches w₂ (setCap c₁ i w₁) c' := by
  simp only [Re.Matches]
  constructor
  · rintro ⟨w₁, w₂, c₂, rfl, ⟨c₁, h, rfl⟩, h'⟩
    exact ⟨w₁, w₂, c₁, rfl, h, h'⟩
  · rintro ⟨w₁, w₂, c₁, rfl, h, h'⟩
    exact ⟨w₁, w₂, _, rfl, ⟨c₁, h, rfl⟩, h'⟩

theorem Matches_group {i : Nat} {r : Re} {w : List Char} {c c' : Caps} :
    (Re.group i r).Matches w c c' ↔ ∃ c₁, r.Matches w c c₁ ∧ c' = setCap c₁ i w := by
  simp only [Re.Matches]

theorem Matches_lit {l w : List Char} {c c' : Caps} :
    (Re.lit l).Matches w c c' ↔ w = l ∧ c' = c := by
  simp only [Re.Matches]

/-- The meaning of the sub-pattern `\d+\.\d+`. -/
theorem Matches_decimal {w : List Char} {c c' : Caps} :
    decimalPattern.Matches w c c' ↔
      (∃ d : DecimalText, d.wellFormed = true ∧ w = d.text) ∧ c' = c := by
  simp only [decimalPattern, Re.cat, Matches_plus_seq, Matches_lit_seq, Matches_plus]
  constructor
  · rintro ⟨w₁, w₂, rfl, h₁, w₃, rfl, h₃, rfl⟩
    exact ⟨⟨⟨w₁, w₃⟩, by simp [DecimalText.wellFormed, isDigits, h₁, h₃], rfl⟩, rfl⟩
  · rintro ⟨⟨d, hd, rfl⟩, rfl⟩
    simp only [DecimalText.wellFormed, isDigits, Bool.and_eq_true] at hd
    exact ⟨d.whole, _, rfl, hd.1, d.fraction, rfl, hd.2, rfl⟩

/-- The meaning of the latency/loss pattern. -/
theorem latencyLoss_Matches {text : List Char} {c : Caps} :
    NetChannelLatencyLossLine.s_Regex.Matches text Caps.none c ↔
      ∃ l p : DecimalText, l.wellFormed = true ∧ p.wellFormed = true ∧
        text = latencyLossText l.text p.text ∧
        c = setCap (setCap Caps.none 1 l.text) 2 p.text := by
  simp only [NetChannelLatencyLossLine.s_Regex, Re.cat, Matches_group_seq, Matches_lit_seq,
    Matches_group, Matches_decimal]
  constructor
  · rintro ⟨w₂, rfl, w₁, w₃, c₁, rfl, ⟨⟨l, hl, rfl⟩, rfl⟩, w₄, rfl, c₂, ⟨⟨p, hp, rfl⟩, rfl⟩, rfl⟩
    exact ⟨l, p, hl, hp, rfl, rfl⟩
  · rintro ⟨l, p, hl, hp, rfl, rfl⟩
    exact ⟨_, rfl, l.text, _, _, rfl, ⟨⟨l, hl, rfl⟩, rfl⟩, _, rfl, _, ⟨⟨p, hp, rfl⟩, rfl⟩, rfl⟩

/-- The meaning of the packet-rate pattern. -/
theorem packets_Matches {text : List Char} {c : Caps} :
    NetChannelPacketsLine.s_Regex.Matches text Caps.none c ↔
      ∃ i o : DecimalText, i.wellFormed = true ∧ o.wellFormed = true ∧
        text = packetsText i.text o.text ∧
        c = setCap (setCap Caps.none 1 i.text) 2 o.text := by
  simp only [NetChannelPacketsLine.s_Regex, Re.cat, Matches_group_seq, Matches_lit_seq,
    Matches_lit, Matches_decimal]
  constructor
  · rintro ⟨w₂, rfl, w₁, w₃, c₁, rfl, ⟨⟨i, hi, rfl⟩, rfl⟩, w₄, rfl, w₅, w₆, c₂, rfl,
      ⟨⟨o, ho, rfl⟩, rfl⟩, rfl, rfl⟩
    exact ⟨i, o, hi, ho, rfl, rfl⟩
  · rintro ⟨i, o, hi, ho, rfl, rfl⟩
    exact ⟨_, rfl, i.text, _, _, rfl, ⟨⟨i, hi, rfl⟩, rfl⟩, _, rfl, o.text, _, _, rfl,
      ⟨⟨o, ho, rfl⟩, rfl⟩, rfl, rfl⟩
theorem Matches_rep {n : Nat} {a : Atom} {w : List Char} {c c' : Caps} :
    (Re.rep n a).Matches w c c' ↔ (w.length = n ∧ ∀ x ∈ w, a.test x = true) ∧ c' = c := by
  simp only [Re.Matches, and_assoc]

/-- The meaning of the sub-pattern `[0-9.:a-fA-F]+:\d+`. -/
theorem Matches_address {w : List Char} {c c' : Caps} :
    addressPattern.Matches w c c' ↔
      (∃ host port, isRun addressClass.test host = true ∧ isDigits port = true ∧
        w = host ++ (':' :: port)) ∧ c' = c := by
  simp only [addressPattern, Re.cat, Matches_plus_seq, Matches_lit_seq, Matches_plus]
  constructor
  · rintro ⟨w₁, w₂, rfl, h₁, w₃, rfl, h₃, rfl⟩
    exact ⟨⟨w₁, w₃, h₁, h₃, rfl⟩, rfl⟩
  · rintro ⟨⟨host, port, h₁, h₂, rfl⟩, rfl⟩
    exact ⟨host, _, rfl, h₁, port, rfl, h₂, rfl⟩

/-- The meaning of the split-packet pattern. -/
theorem splitPacket_Matches {text : List Char} {c : Caps} :
    SplitPacketLine.s_Regex.Matches text Caps.none c ↔
      ∃ t : SplitPacketText, t.wellFormed = true ∧ text = t.text ∧ c = t.caps := by
  simp only [SplitPacketLine.s_Regex, Re.cat, Matches_group_seq, Matches_lit_seq,
    Matches_plus_seq, Matches_group, Matches_plus, Matches_rep, Matches_address]
  constructor
  · rintro ⟨_, rfl, soc, _, _, rfl, ⟨⟨hlen, hdot⟩, rfl⟩, _, rfl, p₁, _, rfl, hp₁,
      idx, _, _, rfl, ⟨hidx, rfl⟩, _, rfl, p₂, _, rfl, hp₂,
      cnt, _, _, rfl, ⟨hcnt, rfl⟩, _, rfl, p₃, _, rfl, hp₃,
      sq, _, _, rfl, ⟨hsq, rfl⟩, _, rfl, p₄, _, rfl, hp₄,
      sz, _, _, rfl, ⟨hsz, rfl⟩, _, rfl, p₅, _, rfl, hp₅,
      mt, _, _, rfl, ⟨hmt, rfl⟩, _, rfl, _, ⟨⟨host, port, hhost, hport, rfl⟩, rfl⟩, rfl⟩
    refine ⟨⟨soc, p₁, idx, p₂, cnt, p₃, sq, p₄, sz, p₅, mt, host, port⟩, ?_, rfl, rfl⟩
    simp only [SplitPacketText.wellFormed, isBlanks, isDigits, Bool.and_eq_true, beq_iff_eq,
      List.all_eq_true]
    exact ⟨⟨⟨⟨⟨⟨⟨⟨⟨⟨⟨⟨⟨hlen, hdot⟩, hp₁⟩, hidx⟩, hp₂⟩, hcnt⟩, hp₃⟩, hsq⟩, hp₄⟩, hsz⟩, hp₅⟩, hmt⟩,
      hhost⟩, hport⟩
  · rintro ⟨t, hwf, rfl, rfl⟩
    simp only [SplitPacketText.wellFormed, isBlanks, isDigits, Bool.and_eq_true, beq_iff_eq,
      List.all_eq_true] at hwf
    obtain ⟨⟨⟨⟨⟨⟨⟨⟨⟨⟨⟨⟨⟨hlen, hdot⟩, hp₁⟩, hidx⟩, hp₂⟩, hcnt⟩, hp₃⟩, hsq⟩, hp₄⟩, hsz⟩, hp₅⟩, hmt⟩,
      hhost⟩, hport⟩ := hwf
    exact ⟨_, rfl, t.socket, _, _, rfl, ⟨⟨hlen, hdot⟩, rfl⟩, _, rfl, t.pad₁, _, rfl, hp₁,
      t.index, _, _, rfl, ⟨hidx, rfl⟩, _, rfl, t.pad₂, _, rfl, hp₂,
      t.count, _, _, rfl, ⟨hcnt, rfl⟩, _, rfl, t.pad₃, _, rfl, hp₃,
      t.sequence, _, _, rfl, ⟨hsq, rfl⟩, _, rfl, t.pad₄, _, rfl, hp₄,
      t.size, _, _, rfl, ⟨hsz, rfl⟩, _, rfl, t.pad₅, _, rfl, hp₅,
      t.mtu, _, _, rfl, ⟨hmt, rfl⟩, _, rfl, _, ⟨⟨t.host, t.port, hhost, hport, rfl⟩, rfl⟩, rfl⟩
/-! ### The grammars are unambiguous -/

/-- A run of `p`-characters followed by something that does not start with a
`p`-character can be read off a text in one way only. -/
theorem run_append_inj {p : Char → Bool} {w w' r r' : List Char}
    (hw : ∀ x ∈ w, p x = true) (hw' : ∀ x ∈ w', p x = true)
    (hr : r.head?.map p ≠ some true) (hr' : r'.head?.map p ≠ some true)
    (h : w ++ r = w' ++ r') : w = w' ∧ r = r' := by
  induction w generalizing w' with
  | nil =>
    cases w' with
    | nil => exact ⟨rfl, by simpa using h⟩
    | cons d w' =>
      exfalso
      simp only [List.nil_append] at h
      subst h
      exact hr (by simp [hw' d (List.mem_cons_self _ _)])
  | cons a w ih =>
    cases w' with
    | nil =>
      exfalso
      simp only [List.nil_append] at h
      subst h
      exact hr' (by simp [hw a (List.mem_cons_self _ _)])
    | cons d w' =>
      simp only [List.cons_append, List.cons.injEq] at h
      obtain ⟨rfl, h⟩ := h
      obtain ⟨rfl, rfl⟩ := ih (fun x hx => hw x (List.mem_cons_of_mem _ hx))
        (fun x hx => hw' x (List.mem_cons_of_mem _ hx)) h
      exact ⟨rfl, rfl⟩

theorem run_char_append_inj {p : Char → Bool} {w w' r r' : List Char} {c c' : Char}
    (hw : isRun p w = true) (hw' : isRun p w' = true) (hc : p c = false) (hc' : p c' = false)
    (h : w ++ c :: r = w' ++ c' :: r') : w = w' ∧ c :: r = c' :: r' :=
  run_append_inj (isRun_iff.1 hw).2 (isRun_iff.1 hw').2 (by simp [hc]) (by simp [hc']) h

theorem run_lit_append_inj {p : Char → Bool} {w w' l r r' : List Char}
    (hw : isRun p w = true) (hw' : isRun p w' = true) (hl : l.head?.map p = some false)
    (h : w ++ (l ++ r) = w' ++ (l ++ r')) : w = w' ∧ r = r' := by
  have hne : ∀ s : List Char, (l ++ s).head?.map p ≠ some true := by
    intro s
    cases l with
    | nil => simp at hl
    | cons a l => simp only [List.cons_append, List.head?_cons, Option.map_some'] at hl ⊢
                  rw [Option.some.inj hl]; simp
  obtain ⟨h₁, h₂⟩ := run_append_inj (isRun_iff.1 hw).2 (isRun_iff.1 hw').2 (hne r) (hne r') h
  exact ⟨h₁, List.append_cancel_left h₂⟩

theorem run_run_append_inj {p q : Char → Bool} (hpq : ∀ x, q x = true → p x = false)
    {w w' v v' r r' : List Char}
    (hw : isRun p w = true) (hw' : isRun p w' = true)
    (hv : isRun q v = true) (hv' : isRun q v' = true)
    (h : w ++ (v ++ r) = w' ++ (v' ++ r')) : w = w' ∧ v ++ r = v' ++ r' := by
  have hne : ∀ u s : List Char, isRun q u = true → (u ++ s).head?.map p ≠ some true := by
    intro u s hu
    obtain ⟨hu₁, hu₂⟩ := isRun_iff.1 hu
    cases u with
    | nil => exact absurd rfl hu₁
    | cons a u => simp [hpq a (hu₂ a (List.mem_cons_self _ _))]
  exact run_append_inj (isRun_iff.1 hw).2 (isRun_iff.1 hw').2 (hne v r hv) (hne v' r' hv') h

theorem digit_not_blank (x : Char) (h : Atom.digit.test x = true) :
    (Atom.chr ' ').test x = false := by
  simp only [Atom.test, Bool.and_eq_true, decide_eq_true_eq] at h
  simp only [Atom.test, beq_eq_false_iff_ne, ne_eq]
  rintro rfl
  exact absurd h.1 (by decide)

theorem decimalText_inj {d d' : DecimalText} (hd : d.wellFormed = true)
    (hd' : d'.wellFormed = true) {r r' : List Char} (c c' : Char)
    (hc : Atom.digit.test c = false) (hc' : Atom.digit.test c' = false)
    (h : d.text ++ c :: r = d'.text ++ c' :: r') : d = d' ∧ c :: r = c' :: r' := by
  simp only [DecimalText.wellFormed, Bool.and_eq_true, isDigits] at hd hd'
  simp only [DecimalText.text, List.append_assoc, List.cons_append] at h
  obtain ⟨h₁, h₂⟩ := run_char_append_inj hd.1 hd'.1 (by decide) (by decide) h
  obtain ⟨h₃, h₄⟩ := run_char_append_inj hd.2 hd'.2 hc hc' (List.cons.inj h₂).2
  cases d; cases d'
  simp only at h₁ h₃
  subst h₁ h₃
  exact ⟨rfl, h₄⟩

theorem decimalText_inj_end {d d' : DecimalText} (hd : d.wellFormed = true)
    (hd' : d'.wellFormed = true) (h : d.text = d'.text) : d = d' := by
  simp only [DecimalText.wellFormed, Bool.and_eq_true, isDigits] at hd hd'
  simp only [DecimalText.text] at h
  obtain ⟨h₁, h₂⟩ := run_char_append_inj hd.1 hd'.1 (by decide) (by decide) h
  cases d; cases d'
  simp only at h₁ h₂
  simp only [List.cons.injEq, true_and] at h₂
  subst h₁ h₂
  rfl

theorem latencyLossText_inj {l p l' p' : DecimalText}
    (hl : l.wellFormed = true) (hp : p.wellFormed = true)
    (hl' : l'.wellFormed = true) (hp' : p'.wellFormed = true)
    (h : latencyLossText l.text p.text = latencyLossText l'.text p'.text) :
    l = l' ∧ p = p' := by
  simp only [latencyLossText] at h
  have h := List.append_cancel_left h
  obtain ⟨h₁, h₂⟩ := decimalText_inj hl hl' ',' ',' (by decide) (by decide) h
  have h₃ : ", loss ".toList ++ p.text = ", loss ".toList ++ p'.text := h₂
  exact ⟨h₁, decimalText_inj_end hp hp' (List.append_cancel_left h₃)⟩

theorem packetsText_inj {i o i' o' : DecimalText}
    (hi : i.wellFormed = true) (ho : o.wellFormed = true)
    (hi' : i'.wellFormed = true) (ho' : o'.wellFormed = true)
    (h : packetsText i.text o.text = packetsText i'.text o'.text) :
    i = i' ∧ o = o' := by
  simp only [packetsText] at h
  have h := List.append_cancel_left h
  obtain ⟨h₁, h₂⟩ := decimalText_inj hi hi' '/' '/' (by decide) (by decide) h
  have h₃ : "/s, out ".toList ++ (o.text ++ '/' :: "s".toList)
      = "/s, out ".toList ++ (o'.text ++ '/' :: "s".toList) := h₂
  obtain ⟨h₄, -⟩ := decimalText_inj ho ho' '/' '/' (by decide) (by decide)
    (List.append_cancel_left h₃)
  exact ⟨h₁, h₄⟩

/-- Two readings of one split-packet line record the same sub-matches. -/
theorem splitPacket_caps_eq_of_text_eq {t t' : SplitPacketText}
    (ht : t.wellFormed = true) (ht' : t'.wellFormed = true) (h : t.text = t'.text) :
    t.caps = t'.caps := by
  simp only [SplitPacketText.wellFormed, isBlanks, isDigits, Bool.and_eq_true, beq_iff_eq]
    at ht ht'
  obtain ⟨⟨⟨⟨⟨⟨⟨⟨⟨⟨⟨⟨⟨hlen, -⟩, hp₁⟩, hidx⟩, hp₂⟩, hcnt⟩, hp₃⟩, hsq⟩, hp₄⟩, hsz⟩, hp₅⟩, hmt⟩,
      -⟩, -⟩ := ht
  obtain ⟨⟨⟨⟨⟨⟨⟨⟨⟨⟨⟨⟨⟨hlen', -⟩, hp₁'⟩, hidx'⟩, hp₂'⟩, hcnt'⟩, hp₃'⟩, hsq'⟩, hp₄'⟩, hsz'⟩, hp₅'⟩,
      hmt'⟩, -⟩, -⟩ := ht'
  simp only [SplitPacketText.text] at h
  obtain ⟨e₁, h⟩ := List.append_inj (List.append_cancel_left h) (hlen.trans hlen'.symm)
  obtain ⟨e₂, h⟩ := run_run_append_inj digit_not_blank hp₁ hp₁' hidx hidx'
    (List.append_cancel_left h)
  obtain ⟨e₃, h⟩ := run_char_append_inj hidx hidx' (by decide) (by decide) h
  obtain ⟨e₄, h⟩ := run_run_append_inj digit_not_blank hp₂ hp₂' hcnt hcnt' (List.cons.inj h).2
  obtain ⟨e₅, h⟩ := run_lit_append_inj hcnt hcnt' (by decide) h
  obtain ⟨e₆, h⟩ := run_run_append_inj digit_not_blank hp₃ hp₃' hsq hsq' h
  obtain ⟨e₇, h⟩ := run_lit_append_inj hsq hsq' (by decide) h
  obtain ⟨e₈, h⟩ := run_run_append_inj digit_not_blank hp₄ hp₄' hsz hsz' h
  obtain ⟨e₉, h⟩ := run_lit_append_inj hsz hsz' (by decide) h
  obtain ⟨e₁₀, h⟩ := run_run_append_inj digit_not_blank hp₅ hp₅' hmt hmt' h
  obtain ⟨e₁₁, h⟩ := run_lit_append_inj hmt hmt' (by decide) h
  simp only [SplitPacketText.caps, e₁, e₃, e₅, e₇, e₉, e₁₁, h]
/-! ### What `regex_match` returns for the three patterns -/

theorem regex_match_splitPacket {t : SplitPacketText} (ht : t.wellFormed = true) :
    regex_match SplitPacketLine.s_Regex t.text = some t.caps := by
  apply regex_match_complete (splitPacket_Matches.2 ⟨t, ht, rfl, rfl⟩)
  intro c' hc'
  obtain ⟨t', ht', htext, rfl⟩ := splitPacket_Matches.1 hc'
  exact splitPacket_caps_eq_of_text_eq ht' ht htext.symm

theorem regex_match_splitPacket_none {text : List Char} (h : ¬ SplitPacketGrammar text) :
    regex_match SplitPacketLine.s_Regex text = none := by
  rw [regex_match_eq_none]
  intro c hc
  obtain ⟨t, ht, htext, -⟩ := splitPacket_Matches.1 hc
  exact h ⟨t, ht, htext⟩

theorem regex_match_splitPacket_some {text : List Char} {c : Caps}
    (h : regex_match SplitPacketLine.s_Regex text = some c) : SplitPacketGrammar text := by
  obtain ⟨t, ht, htext, -⟩ := splitPacket_Matches.1 (regex_match_sound h)
  exact ⟨t, ht, htext⟩

theorem regex_match_latencyLoss {l p : DecimalText} (hl : l.wellFormed = true)
    (hp : p.wellFormed = true) :
    regex_match NetChannelLatencyLossLine.s_Regex (latencyLossText l.text p.text)
      = some (setCap (setCap Caps.none 1 l.text) 2 p.text) := by
  apply regex_match_complete (latencyLoss_Matches.2 ⟨l, p, hl, hp, rfl, rfl⟩)
  intro c' hc'
  obtain ⟨l', p', hl', hp', htext, rfl⟩ := latencyLoss_Matches.1 hc'
  obtain ⟨rfl, rfl⟩ := latencyLossText_inj hl hp hl' hp' htext
  rfl

theorem regex_match_latencyLoss_none {text : List Char} (h : ¬ LatencyLossGrammar text) :
    regex_match NetChannelLatencyLossLine.s_Regex text = none := by
  rw [regex_match_eq_none]
  intro c hc
  obtain ⟨l, p, hl, hp, htext, -⟩ := latencyLoss_Matches.1 hc
  exact h ⟨l, p, hl, hp, htext⟩

theorem regex_match_latencyLoss_some {text : List Char} {c : Caps}
    (h : regex_match NetChannelLatencyLossLine.s_Regex text = some c) :
    LatencyLossGrammar text := by
  obtain ⟨l, p, hl, hp, htext, -⟩ := latencyLoss_Matches.1 (regex_match_sound h)
  exact ⟨l, p, hl, hp, htext⟩

theorem regex_match_packets {i o : DecimalText} (hi : i.wellFormed = true)
    (ho : o.wellFormed = true) :
    regex_match NetChannelPacketsLine.s_Regex (packetsText i.text o.text)
      = some (setCap (setCap Caps.none 1 i.text) 2 o.text) := by
  apply regex_match_complete (packets_Matches.2 ⟨i, o, hi, ho, rfl, rfl⟩)
  intro c' hc'
  obtain ⟨i', o', hi', ho', htext, rfl⟩ := packets_Matches.1 hc'
  obtain ⟨rfl, rfl⟩ := packetsText_inj hi ho hi' ho' htext
  rfl

theorem regex_match_packets_none {text : List Char} (h : ¬ PacketsGrammar text) :
    regex_match NetChannelPacketsLine.s_Regex text = none := by
  rw [regex_match_eq_none]
  intro c hc
  obtain ⟨i, o, hi, ho, htext, -⟩ := packets_Matches.1 hc
  exact h ⟨i, o, hi, ho, htext⟩

theorem regex_match_packets_some {text : List Char} {c : Caps}
    (h : regex_match NetChannelPacketsLine.s_Regex text = some c) : PacketsGrammar text := by
  obtain ⟨i, o, hi, ho, htext, -⟩ := packets_Matches.1 (regex_match_sound h)
  exact ⟨i, o, hi, ho, htext⟩

/-! ### Numeric conversion of a digit field -/

theorem takeWhile_of_isRun {p : Char → Bool} {w : List Char} (h : isRun p w = true) :
    w.takeWhile p = w := by
  obtain ⟨-, hall⟩ := isRun_iff.1 h
  clear h
  induction w with
  | nil => rfl
  | cons a w ih =>
    simp only [List.takeWhile_cons, hall a (List.mem_cons_self _ _), if_true, List.cons.injEq,
      true_and]
    exact ih (fun x hx => hall x (List.mem_cons_of_mem _ hx))

theorem from_chars_throw_of_le {max : Nat} {w : List Char} (hw : isDigits w = true)
    (h : decimalValue w ≤ max) : from_chars_throw max w = .ok (decimalValue w) := by
  have hne : w ≠ [] := (isRun_iff.1 hw).1
  unfold from_chars_throw
  simp only [takeWhile_of_isRun hw, List.isEmpty_iff, hne, if_false, h, if_true]

theorem from_chars_throw_of_lt {max : Nat} {w : List Char} (hw : isDigits w = true)
    (h : max < decimalValue w) : from_chars_throw max w = .error (.fromCharsFailed w) := by
  have hne : w ≠ [] := (isRun_iff.1 hw).1
  unfold from_chars_throw
  simp only [takeWhile_of_isRun hw, List.isEmpty_iff, hne, if_false, Nat.not_le.2 h]

/-- Stepping through `SplitPacketLine::TryParse` on a line of the grammar. -/
theorem splitPacket_TryParse_text (b : Build) {t : SplitPacketText}
    (ht : t.wellFormed = true) (timestamp : time_point_t) :
    SplitPacketLine.TryParse b t.text timestamp =
      (do
        let socketType ← SplitPacketLine.socketTypeOf t.socket
        let index ← from_chars_throw b.indexMax t.index
        assert b (decide (index > 0))
        let count ← from_chars_throw b.countMax t.count
        let sequence ← from_chars_throw b.sequenceMax t.sequence
        let size ← from_chars_throw b.sizeMax t.size
        let mtu ← from_chars_throw b.mtuMax t.mtu
        pure (some {
          m_Timestamp := timestamp
          m_Packet := {
            m_SocketType := socketType
            m_Index := if index > 0 then index - 1 else index
            m_Count := count
            m_Sequence := sequence
            m_Size := size
            m_MTU := mtu
            m_Address := t.address
            m_TotalSize := b.totalSizeInit } })) := by
  unfold SplitPacketLine.TryParse
  rw [regex_match_splitPacket ht]
  rfl

/-! ### `SplitPacketLine::TryParse` on lines of its grammar -/

theorem socketTypeOf_of_mem {socket : List Char} {kind : SocketType}
    (h : (socket, kind) ∈ socketKinds) : SplitPacketLine.socketTypeOf socket = .ok kind := by
  simp only [socketKinds, List.mem_cons, Prod.mk.injEq, List.mem_singleton, List.not_mem_nil,
    or_false] at h
  rcases h with ⟨rfl, rfl⟩ | ⟨rfl, rfl⟩ | ⟨rfl, rfl⟩ | ⟨rfl, rfl⟩ | ⟨rfl, rfl⟩ | ⟨rfl, rfl⟩ <;> rfl

theorem socketTypeOf_of_not_mem {socket : List Char} (h : socket ∉ knownSocketTokens) :
    SplitPacketLine.socketTypeOf socket = .error (.unknownSocketType socket) := by
  simp only [knownSocketTokens, socketKinds, List.map_cons, List.map_nil, List.mem_cons,
    List.mem_singleton, List.not_mem_nil, or_false, not_or] at h
  obtain ⟨h₁, h₂, h₃, h₄, h₅, h₆⟩ := h
  simp only [SplitPacketLine.socketTypeOf, h₁, h₂, h₃, h₄, h₅, h₆, if_false]

theorem assert_ok {b : Build} {cond : Bool} (h : b.ndebug = true ∨ cond = true) :
    assert b cond = .ok () := by
  rcases h with h | h <;> simp [assert, h]

/-- The line object that `SplitPacketLine::TryParse` returns for a line of its
grammar with a known socket token and all numbers in range. -/
theorem splitPacket_TryParse_decodes (b : Build) (t : SplitPacketText)
    (timestamp : time_point_t) (kind : SocketType)
    (ht : t.wellFormed = true) (hsoc : (t.socket, kind) ∈ socketKinds)
    (hrange : t.inRange b = true) (hidx : b.ndebug = true ∨ 0 < decimalValue t.index) :
    SplitPacketLine.TryParse b t.text timestamp = .ok (some {
      m_Timestamp := timestamp
      m_Packet := {
        m_SocketType := kind
        m_Index := decimalValue t.index - 1
        m_Count := decimalValue t.count
        m_Sequence := decimalValue t.sequence
        m_Size := decimalValue t.size
        m_MTU := decimalValue t.mtu
        m_Address := t.address
        m_TotalSize := b.totalSizeInit } }) := by
  have hwf := ht
  simp only [SplitPacketText.wellFormed, Bool.and_eq_true] at hwf
  obtain ⟨⟨⟨⟨⟨⟨⟨⟨⟨⟨⟨⟨-, -⟩, hi⟩, -⟩, hc⟩, -⟩, hs⟩, -⟩, hz⟩, -⟩, hm⟩, -⟩, -⟩ := hwf
  simp only [SplitPacketText.inRange, Bool.and_eq_true, decide_eq_true_eq] at hrange
  obtain ⟨⟨⟨⟨ri, rc⟩, rs⟩, rz⟩, rm⟩ := hrange
  rw [splitPacket_TryParse_text b ht, socketTypeOf_of_mem hsoc,
    from_chars_throw_of_le hi ri, from_chars_throw_of_le hc rc, from_chars_throw_of_le hs rs,
    from_chars_throw_of_le hz rz, from_chars_throw_of_le hm rm]
  have ha : assert b (decide (decimalValue t.index > 0)) = .ok () :=
    assert_ok (hidx.imp id (fun h => by simpa using h))
  have hsub : (if decimalValue t.index > 0 then decimalValue t.index - 1
      else decimalValue t.index) = decimalValue t.index - 1 := by
    split <;> omega
  simp only [bind, Except.bind, ha, hsub, pure, Except.pure]

/-- C1, the code at the failing input: the line
`<-- [cl ] Split packet   0/   4 seq    12 size  512 mtu 1200 from 10.0.0.5:27015`
fully matches the split-packet grammar, its token `cl ` is one of the six known
ones and all its numbers are within the range of their members. In a build that
keeps assertions `SplitPacketLine::TryParse` returns no line object for it: it
stops at the failed `assert(packet.m_Index > 0)`. With `NDEBUG` it returns the
line object with the socket kind, count, sequence, size, MTU and address of the
text. -/
theorem C1_TryParse_no_event_on_index_zero :
    indexZeroSplitPacket.wellFormed = true
      ∧ (indexZeroSplitPacket.socket, SocketType.Client) ∈ socketKinds
      ∧ indexZeroSplitPacket.inRange build16 = true
      ∧ SplitPacketLine.TryParse build16
          "<-- [cl ] Split packet   0/   4 seq    12 size  512 mtu 1200 from 10.0.0.5:27015".toList
          7 = .error Failure.assertionFailed
      ∧ (∀ line, SplitPacketLine.TryParse build16
          "<-- [cl ] Split packet   0/   4 seq    12 size  512 mtu 1200 from 10.0.0.5:27015".toList
          7 ≠ .ok (some line))
      ∧ ∃ line, SplitPacketLine.TryParse build16Release
          "<-- [cl ] Split packet   0/   4 seq    12 size  512 mtu 1200 from 10.0.0.5:27015".toList
          7 = .ok (some line)
        ∧ line.m_Packet.m_SocketType = SocketType.Client
        ∧ line.m_Packet.m_Count = 4
        ∧ line.m_Packet.m_Sequence = 12
        ∧ line.m_Packet.m_Size = 512
        ∧ line.m_Packet.m_MTU = 1200
        ∧ line.m_Packet.m_Address = "10.0.0.5:27015".toList := by
  have e : SplitPacketLine.TryParse build16
      "<-- [cl ] Split packet   0/   4 seq    12 size  512 mtu 1200 from 10.0.0.5:27015".toList
      7 = .error Failure.assertionFailed := rfl
  refine ⟨by decide, by decide, by decide, e, ?_, ⟨_, rfl, rfl, rfl, rfl, rfl, rfl, rfl⟩⟩
  intro line h
  rw [e] at h
  cases h

/-- C2: for every line of the split-packet grammar (known socket token, numbers
in range) whose textual fragment index is `n` with `n ≥ 1`, the line object
returned by `SplitPacketLine::TryParse` has the internal fragment index `n - 1`. -/
theorem C2_TryParse_index_zero_based (b : Build) (t : SplitPacketText)
    (timestamp : time_point_t) (kind : SocketType)
    (ht : t.wellFormed = true) (hsoc : (t.socket, kind) ∈ socketKinds)
    (hrange : t.inRange b = true) (hn : 1 ≤ decimalValue t.index) :
    ∃ line, SplitPacketLine.TryParse b t.text timestamp = .ok (some line)
      ∧ line.m_Packet.m_Index = decimalValue t.index - 1 :=
  ⟨_, splitPacket_TryParse_decodes b t timestamp kind ht hsoc hrange (Or.inr hn), rfl⟩

/-- C2, on the example of the specification: the textual index 1 becomes the
internal index 0. -/
theorem C2_TryParse_index_zero_based_witness :
    ∃ line, SplitPacketLine.TryParse build16
        "<-- [cl ] Split packet   1/   4 seq    12 size  512 mtu 1200 from 10.0.0.5:27015".toList
        7 = .ok (some line)
      ∧ line.m_Packet.m_Index = 0 :=
  C2_TryParse_index_zero_based build16 exampleSplitPacket 7 SocketType.Client
    (by decide) (by decide) (by decide) (by decide)

/-- C3: for every line that matches the split-packet grammar but whose
three-character socket token is none of `cl `, `sv `, `htv`, `mat`, `lnk`,
`lan`, `SplitPacketLine::TryParse` reports a decode failure (it throws
"Unknown socket type"); it returns neither `nullptr` nor a line object. -/
theorem C3_TryParse_unknown_socket_fails (b : Build) (t : SplitPacketText)
    (timestamp : time_point_t) (ht : t.wellFormed = true)
    (hsoc : t.socket ∉ knownSocketTokens) :
    SplitPacketLine.TryParse b t.text timestamp = .error (.unknownSocketType t.socket)
      ∧ SplitPacketLine.TryParse b t.text timestamp ≠ .ok none
      ∧ ∀ line, SplitPacketLine.TryParse b t.text timestamp ≠ .ok (some line) := by
  have h : SplitPacketLine.TryParse b t.text timestamp = .error (.unknownSocketType t.socket) := by
    rw [splitPacket_TryParse_text b ht, socketTypeOf_of_not_mem hsoc]
    rfl
  refine ⟨h, ?_, ?_⟩
  · rw [h]; exact fun h' => Except.noConfusion h'
  · intro line; rw [h]; exact fun h' => Except.noConfusion h'

/-- C3, on the example token of the specification: the line
`<-- [xyz] Split packet   1/   4 seq    12 size  512 mtu 1200 from 10.0.0.5:27015`
makes `SplitPacketLine::TryParse` throw "Unknown socket type". -/
theorem C3_TryParse_unknown_socket_fails_witness :
    SplitPacketLine.TryParse build16
        "<-- [xyz] Split packet   1/   4 seq    12 size  512 mtu 1200 from 10.0.0.5:27015".toList
        7 = .error (.unknownSocketType "xyz".toList)
      ∧ SplitPacketLine.TryParse build16
        "<-- [xyz] Split packet   1/   4 seq    12 size  512 mtu 1200 from 10.0.0.5:27015".toList
        7 ≠ .ok none
      ∧ ∀ line, SplitPacketLine.TryParse build16
        "<-- [xyz] Split packet   1/   4 seq    12 size  512 mtu 1200 from 10.0.0.5:27015".toList
        7 ≠ .ok (some line) :=
  C3_TryParse_unknown_socket_fails build16 { exampleSplitPacket with socket := "xyz".toList } 7
    (by decide) (by decide)
/-- C4, refuted as stated: on a line of the grammar whose sequence number
`99999999999999999999` exceeds every integer type of at most 64 bits,
`SplitPacketLine::TryParse` does raise an exception, the one of
`from_chars_throw`. -/
theorem C4_TryParse_out_of_range_raises :
    ∃ e, SplitPacketLine.TryParse build64
        ("<-- [cl ] Split packet   1/   4 seq    99999999999999999999 size  512 mtu 1200 "
          ++ "from 10.0.0.5:27015").toList 7 = .error e
      ∧ e.isException = true :=
  ⟨.fromCharsFailed "99999999999999999999".toList, rfl, rfl⟩

/-- C4 as amended: for every line of the split-packet grammar with a digit field
whose value exceeds the range of its member (and a fragment index that passes
the assertion when it is in range), `SplitPacketLine::TryParse` raises an
exception; that is how it signals the failure, and so it returns neither
`nullptr` nor a line object. -/
theorem C4_TryParse_out_of_range_throws (b : Build) (t : SplitPacketText)
    (timestamp : time_point_t) (ht : t.wellFormed = true)
    (hover : t.inRange b = false) (hidx : b.ndebug = true ∨ 0 < decimalValue t.index) :
    (∃ e, SplitPacketLine.TryParse b t.text timestamp = .error e ∧ e.isException = true)
      ∧ SplitPacketLine.TryParse b t.text timestamp ≠ .ok none
      ∧ ∀ line, SplitPacketLine.TryParse b t.text timestamp ≠ .ok (some line) := by
  have key : ∃ e, SplitPacketLine.TryParse b t.text timestamp = .error e
      ∧ e.isException = true := by
    have hwf := ht
    simp only [SplitPacketText.wellFormed, Bool.and_eq_true] at hwf
    obtain ⟨⟨⟨⟨⟨⟨⟨⟨⟨⟨⟨⟨-, -⟩, hi⟩, -⟩, hc⟩, -⟩, hs⟩, -⟩, hz⟩, -⟩, hm⟩, -⟩, -⟩ := hwf
    rw [splitPacket_TryParse_text b ht]
    cases hsoc : SplitPacketLine.socketTypeOf t.socket with
    | error e =>
      refine ⟨e, rfl, ?_⟩
      unfold SplitPacketLine.socketTypeOf at hsoc
      split_ifs at hsoc
      cases hsoc
      rfl
    | ok kind =>
      by_cases ri : decimalValue t.index ≤ b.indexMax
      swap
      · rw [from_chars_throw_of_lt hi (Nat.not_le.1 ri)]
        exact ⟨_, rfl, rfl⟩
      have ha : assert b (decide (decimalValue t.index > 0)) = .ok () :=
        assert_ok (hidx.imp id (fun h => by simpa using h))
      rw [from_chars_throw_of_le hi ri]
      simp only [bind, Except.bind, ha]
      by_cases rc : decimalValue t.count ≤ b.countMax
      swap
      · rw [from_chars_throw_of_lt hc (Nat.not_le.1 rc)]
        exact ⟨_, rfl, rfl⟩
      rw [from_chars_throw_of_le hc rc]
      by_cases rs : decimalValue t.sequence ≤ b.sequenceMax
      swap
      · rw [from_chars_throw_of_lt hs (Nat.not_le.1 rs)]
        exact ⟨_, rfl, rfl⟩
      rw [from_chars_throw_of_le hs rs]
      by_cases rz : decimalValue t.size ≤ b.sizeMax
      swap
      · rw [from_chars_throw_of_lt hz (Nat.not_le.1 rz)]
        exact ⟨_, rfl, rfl⟩
      rw [from_chars_throw_of_le hz rz]
      by_cases rm : decimalValue t.mtu ≤ b.mtuMax
      swap
      · rw [from_chars_throw_of_lt hm (Nat.not_le.1 rm)]
        exact ⟨_, rfl, rfl⟩
      exfalso
      simp [SplitPacketText.inRange, ri, rc, rs, rz, rm] at hover
  obtain ⟨e, he, hex⟩ := key
  refine ⟨⟨e, he, hex⟩, ?_, ?_⟩
  · rw [he]; exact fun h' => Except.noConfusion h'
  · intro line; rw [he]; exact fun h' => Except.noConfusion h'

/-- C4 as amended, on a line whose size `70000` does not fit a 16-bit member. -/
theorem C4_TryParse_out_of_range_throws_witness :
    (∃ e, SplitPacketLine.TryParse build16
        "<-- [cl ] Split packet   1/   4 seq    12 size  70000 mtu 1200 from 10.0.0.5:27015".toList
        7 = .error e ∧ e.isException = true)
      ∧ SplitPacketLine.TryParse build16
        "<-- [cl ] Split packet   1/   4 seq    12 size  70000 mtu 1200 from 10.0.0.5:27015".toList
        7 ≠ .ok none
      ∧ ∀ line, SplitPacketLine.TryParse build16
        "<-- [cl ] Split packet   1/   4 seq    12 size  70000 mtu 1200 from 10.0.0.5:27015".toList
        7 ≠ .ok (some line) :=
  C4_TryParse_out_of_range_throws build16 { exampleSplitPacket with size := "70000".toList } 7
    (by decide) (by decide) (by decide)

/-! ### Texts outside the grammars -/

theorem splitPacket_TryParse_of_not_grammar (b : Build) {text : List Char}
    (timestamp : time_point_t) (h : ¬ SplitPacketGrammar text) :
    SplitPacketLine.TryParse b text timestamp = .ok none := by
  unfold SplitPacketLine.TryParse
  rw [regex_match_splitPacket_none h]
  rfl

theorem latencyLoss_TryParse_of_not_grammar (F : FloatModel) {text : List Char}
    (timestamp : time_point_t) (h : ¬ LatencyLossGrammar text) :
    NetChannelLatencyLossLine.TryParse F text timestamp = .ok none := by
  unfold NetChannelLatencyLossLine.TryParse
  rw [regex_match_latencyLoss_none h]
  rfl

theorem packets_TryParse_of_not_grammar (F : FloatModel) {text : List Char}
    (timestamp : time_point_t) (h : ¬ PacketsGrammar text) :
    NetChannelPacketsLine.TryParse F text timestamp = .ok none := by
  unfold NetChannelPacketsLine.TryParse
  rw [regex_match_packets_none h]
  rfl

/-- C5: a text outside a matcher's grammar makes that matcher return `nullptr`,
never a decode failure: this holds for `SplitPacketLine::TryParse`,
`NetChannelLatencyLossLine::TryParse` and `NetChannelPacketsLine::TryParse`, so
a text outside all three grammars is unrecognised by all three. -/
theorem C5_TryParse_no_match_is_null (b : Build) (F : FloatModel) (text : List Char)
    (timestamp : time_point_t) :
    (¬ SplitPacketGrammar text → SplitPacketLine.TryParse b text timestamp = .ok none)
      ∧ (¬ LatencyLossGrammar text →
          NetChannelLatencyLossLine.TryParse F text timestamp = .ok none)
      ∧ (¬ PacketsGrammar text → NetChannelPacketsLine.TryParse F text timestamp = .ok none) := by
  exact ⟨splitPacket_TryParse_of_not_grammar b timestamp,
    latencyLoss_TryParse_of_not_grammar F timestamp,
    packets_TryParse_of_not_grammar F timestamp⟩

/-- C5, on the text `Connected to 10.0.0.5:27015`, which is outside all three
grammars. -/
theorem C5_TryParse_no_match_is_null_witness :
    SplitPacketLine.TryParse build16 "Connected to 10.0.0.5:27015".toList 7 = .ok none
      ∧ NetChannelLatencyLossLine.TryParse exactDecimal "Connected to 10.0.0.5:27015".toList 7
          = .ok none
      ∧ NetChannelPacketsLine.TryParse exactDecimal "Connected to 10.0.0.5:27015".toList 7
          = .ok none := by
  have h := C5_TryParse_no_match_is_null build16 exactDecimal
    "Connected to 10.0.0.5:27015".toList 7
  refine ⟨h.1 ?_, h.2.1 ?_, h.2.2 ?_⟩
  · rintro ⟨t, -, ht⟩
    simp [SplitPacketText.text] at ht
  · rintro ⟨l, p, -, -, ht⟩
    simp [latencyLossText] at ht
  · rintro ⟨i, o, -, -, ht⟩
    simp [packetsText] at ht

/-! ### Printing a decoded split packet -/

theorem toInt_of_le {value : Nat} (h : value ≤ 2147483647) : toInt value = (value : Int) := by
  unfold toInt
  have h₁ : value % 4294967296 = value := Nat.mod_eq_of_lt (by omega)
  rw [h₁, if_pos (by omega)]

theorem Print_of_mem {socket : List Char} {kind : SocketType}
    (h : (socket, kind) ∈ socketKinds) (timestamp : time_point_t)
    (index count sequence size mtu total : Nat) (address : List Char) :
    SplitPacketLine.Print ⟨timestamp, ⟨kind, index, count, sequence, size, mtu, address, total⟩⟩
      = .ok ("--> [".toList ++ socket ++ "] Split packet ".toList
          ++ formatInt 4 (toInt (index + 1)) ++ "/".toList
          ++ formatInt 4 (toInt count) ++ " seq ".toList
          ++ formatInt 5 (toInt sequence) ++ " size ".toList
          ++ formatInt 4 (toInt size) ++ " mtu ".toList
          ++ formatInt 4 (toInt mtu) ++ " to ".toList
          ++ address ++ " [ total ".toList
          ++ formatInt 4 (toInt total) ++ " ]".toList) := by
  simp only [socketKinds, List.mem_cons, Prod.mk.injEq, List.mem_singleton, List.not_mem_nil,
    or_false] at h
  rcases h with ⟨rfl, rfl⟩ | ⟨rfl, rfl⟩ | ⟨rfl, rfl⟩ | ⟨rfl, rfl⟩ | ⟨rfl, rfl⟩ | ⟨rfl, rfl⟩ <;> rfl

/-- Apart from its fixed text, `SplitPacketLine::Print` inverts
`SplitPacketLine::TryParse`: for every line that `TryParse` accepts with a
fragment index of at least 1 (and numbers up to `INT_MAX`), it writes the
decoded packet as
`--> [SOC] Split packet %4i/%4i seq %5i size %4i mtu %4i to ADDR [ total %4i ]`
with the socket token, the 1-based index, the count, sequence, size and MTU and
the address of the original line, followed by the total size. -/
theorem Print_rewrites_decoded_fields (b : Build) (t : SplitPacketText)
    (timestamp : time_point_t) (kind : SocketType)
    (ht : t.wellFormed = true) (hsoc : (t.socket, kind) ∈ socketKinds)
    (hrange : t.inRange b = true) (hn : 1 ≤ decimalValue t.index)
    (hint : t.withinInt = true) :
    ∃ line, SplitPacketLine.TryParse b t.text timestamp = .ok (some line)
      ∧ line.Print = .ok ("--> [".toList ++ t.socket ++ "] Split packet ".toList
          ++ formatInt 4 (decimalValue t.index) ++ "/".toList
          ++ formatInt 4 (decimalValue t.count) ++ " seq ".toList
          ++ formatInt 5 (decimalValue t.sequence) ++ " size ".toList
          ++ formatInt 4 (decimalValue t.size) ++ " mtu ".toList
          ++ formatInt 4 (decimalValue t.mtu) ++ " to ".toList
          ++ t.address ++ " [ total ".toList
          ++ formatInt 4 (toInt b.totalSizeInit) ++ " ]".toList) := by
  refine ⟨_, splitPacket_TryParse_decodes b t timestamp kind ht hsoc hrange (Or.inr hn), ?_⟩
  simp only [SplitPacketText.withinInt, Bool.and_eq_true, decide_eq_true_eq] at hint
  obtain ⟨⟨⟨⟨wi, wc⟩, ws⟩, wz⟩, wm⟩ := hint
  rw [Print_of_mem hsoc, Nat.sub_add_cancel hn, toInt_of_le wi, toInt_of_le wc, toInt_of_le ws,
    toInt_of_le wz, toInt_of_le wm]

/-- The fields that `SplitPacketLine::Print` writes, on the example line of the
specification. -/
theorem Print_rewrites_decoded_fields_example :
    ∃ line, SplitPacketLine.TryParse build16
        "<-- [cl ] Split packet   1/   4 seq    12 size  512 mtu 1200 from 10.0.0.5:27015".toList
        7 = .ok (some line)
      ∧ line.Print = .ok
          ("--> [cl ] Split packet    1/   4 seq    12 size  512 mtu 1200 to 10.0.0.5:27015"
            ++ " [ total    0 ]").toList :=
  Print_rewrites_decoded_fields build16 exampleSplitPacket 7 SocketType.Client
    (by decide) (by decide) (by decide) (by decide) (by decide)

/-! ### The net-channel matchers on lines of their grammars -/

theorem from_chars_throw_float {F : FloatModel} {w : List Char} {v : F.float}
    (h : F.from_chars w = some v) : F.from_chars_throw w = .ok v := by
  simp only [FloatModel.from_chars_throw, h]

theorem latencyLoss_TryParse_decodes (F : FloatModel) (l p : DecimalText)
    (timestamp : time_point_t) (latency loss : F.float)
    (hl : l.wellFormed = true) (hp : p.wellFormed = true)
    (hlatency : F.from_chars l.text = some latency) (hloss : F.from_chars p.text = some loss) :
    NetChannelLatencyLossLine.TryParse F (latencyLossText l.text p.text) timestamp
      = .ok (some { m_Timestamp := timestamp, m_Latency := latency, m_Loss := loss }) := by
  unfold NetChannelLatencyLossLine.TryParse
  rw [regex_match_latencyLoss hl hp]
  have h₁ : setCap (setCap Caps.none 1 l.text) 2 p.text 1 = l.text := rfl
  have h₂ : setCap (setCap Caps.none 1 l.text) 2 p.text 2 = p.text := rfl
  simp only [h₁, h₂, from_chars_throw_float hlatency, from_chars_throw_float hloss]
  rfl

theorem packets_TryParse_decodes (F : FloatModel) (i o : DecimalText)
    (timestamp : time_point_t) (inPerSecond outPerSecond : F.float)
    (hi : i.wellFormed = true) (ho : o.wellFormed = true)
    (hin : F.from_chars i.text = some inPerSecond)
    (hout : F.from_chars o.text = some outPerSecond) :
    NetChannelPacketsLine.TryParse F (packetsText i.text o.text) timestamp
      = .ok (some { m_Timestamp := timestamp, m_InPerSecond := inPerSecond,
                    m_OutPerSecond := outPerSecond }) := by
  unfold NetChannelPacketsLine.TryParse
  rw [regex_match_packets hi ho]
  have h₁ : setCap (setCap Caps.none 1 i.text) 2 o.text 1 = i.text := rfl
  have h₂ : setCap (setCap Caps.none 1 i.text) 2 o.text 2 = o.text := rfl
  simp only [h₁, h₂, from_chars_throw_float hin, from_chars_throw_float hout]
  rfl

/-! ### At most one grammar matches a text -/

theorem splitPacketGrammar_prefix {text : List Char} (h : SplitPacketGrammar text) :
    text.take 3 = "<--".toList := by
  obtain ⟨t, -, rfl⟩ := h
  rfl

theorem latencyLossGrammar_prefix {text : List Char} (h : LatencyLossGrammar text) :
    text.take 3 = "- l".toList := by
  obtain ⟨l, p, -, -, rfl⟩ := h
  rfl

theorem packetsGrammar_prefix {text : List Char} (h : PacketsGrammar text) :
    text.take 3 = "- p".toList := by
  obtain ⟨i, o, -, -, rfl⟩ := h
  rfl

theorem not_splitPacket_and_latencyLoss {text : List Char} (h : SplitPacketGrammar text)
    (h' : LatencyLossGrammar text) : False := by
  have h₁ := splitPacketGrammar_prefix h
  have h₂ := latencyLossGrammar_prefix h'
  rw [h₁] at h₂
  exact absurd h₂ (by decide)

theorem not_splitPacket_and_packets {text : List Char} (h : SplitPacketGrammar text)
    (h' : PacketsGrammar text) : False := by
  have h₁ := splitPacketGrammar_prefix h
  have h₂ := packetsGrammar_prefix h'
  rw [h₁] at h₂
  exact absurd h₂ (by decide)

theorem not_latencyLoss_and_packets {text : List Char} (h : LatencyLossGrammar text)
    (h' : PacketsGrammar text) : False := by
  have h₁ := latencyLossGrammar_prefix h
  have h₂ := packetsGrammar_prefix h'
  rw [h₁] at h₂
  exact absurd h₂ (by decide)

/-! ### First match wins, in any order -/

theorem splitPacketMatcher_eq_none {b : Build} {F : FloatModel} {text : List Char}
    {timestamp : time_point_t} :
    splitPacketMatcher b F text timestamp = .ok none ↔
      SplitPacketLine.TryParse b text timestamp = .ok none := by
  unfold splitPacketMatcher
  rcases h : SplitPacketLine.TryParse b text timestamp with e | (_ | line) <;> simp

theorem latencyLossMatcher_eq_none {F : FloatModel} {text : List Char}
    {timestamp : time_point_t} :
    latencyLossMatcher F text timestamp = .ok none ↔
      NetChannelLatencyLossLine.TryParse F text timestamp = .ok none := by
  unfold latencyLossMatcher
  rcases h : NetChannelLatencyLossLine.TryParse F text timestamp with e | (_ | line) <;> simp

theorem packetsMatcher_eq_none {F : FloatModel} {text : List Char}
    {timestamp : time_point_t} :
    packetsMatcher F text timestamp = .ok none ↔
      NetChannelPacketsLine.TryParse F text timestamp = .ok none := by
  unfold packetsMatcher
  rcases h : NetChannelPacketsLine.TryParse F text timestamp with e | (_ | line) <;> simp

/-- The registry reports "unrecognised" exactly when every matcher returns "no match". -/
theorem tryMatchers_eq_none {F : FloatModel} {ms : List (Matcher F)} {text : List Char}
    {timestamp : time_point_t} :
    tryMatchers ms text timestamp = .ok none ↔ ∀ m ∈ ms, m text timestamp = .ok none := by
  induction ms with
  | nil => simp [tryMatchers]
  | cons m ms ih =>
    simp only [tryMatchers, List.mem_cons, forall_eq_or_imp]
    rcases h : m text timestamp with e | (_ | line)
    · simp
    · simpa using ih
    · simp

/-- When all matchers that do not return "no match" agree on `r`, the registry
returns "no match" or `r`. -/
theorem tryMatchers_eq_or {F : FloatModel} {ms : List (Matcher F)} {text : List Char}
    {timestamp : time_point_t} {r : Except Failure (Option (IConsoleLine F))}
    (h : ∀ m ∈ ms, m text timestamp = .ok none ∨ m text timestamp = r) :
    tryMatchers ms text timestamp = .ok none ∨ tryMatchers ms text timestamp = r := by
  induction ms with
  | nil => left; rfl
  | cons m ms ih =>
    have hm := h m (List.mem_cons_self _ _)
    have ih' := ih (fun m' hm' => h m' (List.mem_cons_of_mem _ hm'))
    simp only [tryMatchers]
    rcases hr : m text timestamp with e | (_ | line)
    · rw [hr] at hm
      rcases hm with hm | hm
      · exact absurd hm (fun h' => Except.noConfusion h')
      · right; simpa using hm
    · simpa using ih'
    · rw [hr] at hm
      rcases hm with hm | hm
      · exact absurd hm (by simp)
      · right; simpa using hm

/-- C9: a grammar match is exclusive. For every text, at most one of
`SplitPacketLine::TryParse`, `NetChannelLatencyLossLine::TryParse` and
`NetChannelPacketsLine::TryParse` returns something other than `nullptr` (a line
object or a decode failure); hence trying the three matchers first-match-wins
gives the same result in every order. -/
theorem C9_grammar_match_exclusive (b : Build) (F : FloatModel) (text : List Char)
    (timestamp : time_point_t) :
    ((SplitPacketLine.TryParse b text timestamp = .ok none
        ∧ NetChannelLatencyLossLine.TryParse F text timestamp = .ok none)
      ∨ (SplitPacketLine.TryParse b text timestamp = .ok none
        ∧ NetChannelPacketsLine.TryParse F text timestamp = .ok none)
      ∨ (NetChannelLatencyLossLine.TryParse F text timestamp = .ok none
        ∧ NetChannelPacketsLine.TryParse F text timestamp = .ok none))
    ∧ ∀ ms : List (Matcher F), ms.Perm (networkMatchers b F) →
        tryMatchers ms text timestamp = tryMatchers (networkMatchers b F) text timestamp := by
  have excl : (SplitPacketLine.TryParse b text timestamp = .ok none
        ∧ NetChannelLatencyLossLine.TryParse F text timestamp = .ok none)
      ∨ (SplitPacketLine.TryParse b text timestamp = .ok none
        ∧ NetChannelPacketsLine.TryParse F text timestamp = .ok none)
      ∨ (NetChannelLatencyLossLine.TryParse F text timestamp = .ok none
        ∧ NetChannelPacketsLine.TryParse F text timestamp = .ok none) := by
    by_cases hs : SplitPacketGrammar text
    · right; right
      exact ⟨latencyLoss_TryParse_of_not_grammar F timestamp
          (fun h => not_splitPacket_and_latencyLoss hs h),
        packets_TryParse_of_not_grammar F timestamp
          (fun h => not_splitPacket_and_packets hs h)⟩
    · by_cases hl : LatencyLossGrammar text
      · right; left
        exact ⟨splitPacket_TryParse_of_not_grammar b timestamp hs,
          packets_TryParse_of_not_grammar F timestamp
            (fun h => not_latencyLoss_and_packets hl h)⟩
      · left
        exact ⟨splitPacket_TryParse_of_not_grammar b timestamp hs,
          latencyLoss_TryParse_of_not_grammar F timestamp hl⟩
  refine ⟨excl, ?_⟩
  have agree : ∃ r, ∀ m ∈ networkMatchers b F,
      m text timestamp = .ok none ∨ m text timestamp = r := by
    simp only [networkMatchers, List.mem_cons, List.mem_singleton, List.not_mem_nil, or_false,
      forall_eq_or_imp, forall_eq]
    rcases excl with ⟨h₁, h₂⟩ | ⟨h₁, h₂⟩ | ⟨h₁, h₂⟩
    · exact ⟨packetsMatcher F text timestamp, Or.inl (splitPacketMatcher_eq_none.2 h₁),
        Or.inl (latencyLossMatcher_eq_none.2 h₂), Or.inr rfl⟩
    · exact ⟨latencyLossMatcher F text timestamp, Or.inl (splitPacketMatcher_eq_none.2 h₁),
        Or.inr rfl, Or.inl (packetsMatcher_eq_none.2 h₂)⟩
    · exact ⟨splitPacketMatcher b F text timestamp, Or.inr rfl,
        Or.inl (latencyLossMatcher_eq_none.2 h₁), Or.inl (packetsMatcher_eq_none.2 h₂)⟩
  obtain ⟨r, hr⟩ := agree
  intro ms hperm
  have hr' : ∀ m ∈ ms, m text timestamp = .ok none ∨ m text timestamp = r :=
    fun m hm => hr m (hperm.mem_iff.1 hm)
  by_cases hq : ∀ m ∈ networkMatchers b F, m text timestamp = .ok none
  · rw [tryMatchers_eq_none.2 hq, tryMatchers_eq_none.2 (fun m hm => hq m (hperm.mem_iff.1 hm))]
  · have h₁ : tryMatchers (networkMatchers b F) text timestamp ≠ .ok none :=
      fun h => hq (tryMatchers_eq_none.1 h)
    have h₂ : tryMatchers ms text timestamp ≠ .ok none :=
      fun h => hq (fun m hm => tryMatchers_eq_none.1 h m (hperm.mem_iff.2 hm))
    rw [(tryMatchers_eq_or hr).resolve_left h₁, (tryMatchers_eq_or hr').resolve_left h₂]

/-! ### The listener collection -/

theorem mem_setInsert {p x : ListenerPtr} {l : List ListenerPtr} :
    x ∈ setInsert p l ↔ x = p ∨ x ∈ l := by
  induction l with
  | nil => simp [setInsert]
  | cons q qs ih =>
    unfold setInsert
    split_ifs with h₁ h₂
    · simp
    · subst h₂; simp
    · simp only [List.mem_cons, ih]
      tauto

theorem sorted_setInsert {p : ListenerPtr} {l : List ListenerPtr}
    (h : l.Sorted (· < ·)) : (setInsert p l).Sorted (· < ·) := by
  induction l with
  | nil => simp [setInsert]
  | cons q qs ih =>
    unfold setInsert
    have hq := List.sorted_cons.1 h
    split_ifs with h₁ h₂
    · refine List.sorted_cons.2 ⟨?_, h⟩
      intro x hx
      rcases List.mem_cons.1 hx with rfl | hx
      · exact h₁
      · exact lt_trans h₁ (hq.1 x hx)
    · exact h
    · refine List.sorted_cons.2 ⟨?_, ih hq.2⟩
      intro x hx
      rcases mem_setInsert.1 hx with rfl | hx
      · exact lt_of_le_of_ne (not_lt.1 h₁) (fun h' => h₂ h'.symm)
      · exact hq.1 x hx

theorem addAll_spec (w : MainWindow) (listeners : List ListenerPtr)
    (h : w.m_ConsoleLineListeners.Sorted (· < ·)) :
    (w.addAll listeners).m_ConsoleLineListeners.Sorted (· < ·)
      ∧ ∀ x, x ∈ (w.addAll listeners).m_ConsoleLineListeners ↔
          x ∈ w.m_ConsoleLineListeners ∨ x ∈ listeners := by
  induction listeners generalizing w with
  | nil => simp [MainWindow.addAll, h]
  | cons p ps ih =>
    have hs : (w.AddConsoleLineListener p).m_ConsoleLineListeners.Sorted (· < ·) :=
      sorted_setInsert h
    obtain ⟨h₁, h₂⟩ := ih (w.AddConsoleLineListener p) hs
    refine ⟨h₁, fun x => ?_⟩
    have := h₂ x
    simp only [MainWindow.addAll, List.foldl_cons] at this ⊢
    rw [this]
    simp only [MainWindow.AddConsoleLineListener, mem_setInsert, List.mem_cons]
    tauto

/-- C10, refuted as stated: registering the listener at address 2 and then the
one at address 1 makes a loop over `m_ConsoleLineListeners` visit 1 before 2,
the reverse of the registration order. -/
theorem C10_iteration_not_registration_order :
    ((MainWindow.mk []).addAll [2, 1]).iterationOrder = [1, 2]
      ∧ ((MainWindow.mk []).addAll [2, 1]).iterationOrder ≠ [2, 1] :=
  ⟨rfl, by decide⟩

/-- C10 as amended: after any sequence of `AddConsoleLineListener` calls on a
window without listeners, a loop over `m_ConsoleLineListeners` visits exactly the
listeners that were added, each once, in ascending order of their addresses. -/
theorem C10_iteration_in_address_order (listeners : List ListenerPtr) :
    ((MainWindow.mk []).addAll listeners).iterationOrder.Sorted (· < ·)
      ∧ ∀ x, x ∈ ((MainWindow.mk []).addAll listeners).iterationOrder ↔ x ∈ listeners := by
  obtain ⟨h₁, h₂⟩ := addAll_spec (MainWindow.mk []) listeners List.sorted_nil
  exact ⟨h₁, fun x => by simpa [MainWindow.iterationOrder] using h₂ x⟩

/-! ### The socket tokens of the decoder and of the encoder -/

theorem mem_socketKinds_of_kind {kind : SocketType} (h : kind ∈ knownSocketKinds) :
    ∃ token, (token, kind) ∈ socketKinds := by
  simp only [knownSocketKinds, List.mem_map, Prod.exists] at h
  obtain ⟨token, kind', hmem, rfl⟩ := h
  exact ⟨token, hmem⟩

theorem mem_socketKinds_of_token {token : List Char} (h : token ∈ knownSocketTokens) :
    ∃ kind, (token, kind) ∈ socketKinds := by
  simp only [knownSocketTokens, List.mem_map, Prod.exists] at h
  obtain ⟨token', kind, hmem, rfl⟩ := h
  exact ⟨kind, hmem⟩

theorem printedToken_eq (socket rest : List Char) (h : socket.length = 3) :
    printedToken ("--> [".toList ++ (socket ++ rest)) = socket := by
  show ((socket ++ rest).take 3) = socket
  rw [← h, List.take_left]

theorem length_of_mem_socketKinds {socket : List Char} {kind : SocketType}
    (h : (socket, kind) ∈ socketKinds) : socket.length = 3 := by
  simp only [socketKinds, List.mem_cons, Prod.mk.injEq, List.mem_singleton, List.not_mem_nil,
    or_false] at h
  rcases h with ⟨rfl, rfl⟩ | ⟨rfl, rfl⟩ | ⟨rfl, rfl⟩ | ⟨rfl, rfl⟩ | ⟨rfl, rfl⟩ | ⟨rfl, rfl⟩ <;> rfl

/-- What `SplitPacketLine::Print` writes for a packet of one of the six kinds
carries the token of that kind between its brackets. -/
theorem Print_token_of_mem {socket : List Char} {kind : SocketType}
    (h : (socket, kind) ∈ socketKinds) (line : SplitPacketLine)
    (hk : line.m_Packet.m_SocketType = kind) :
    ∃ out, line.Print = .ok out ∧ printedToken out = socket := by
  obtain ⟨timestamp, ⟨kind', index, count, sequence, size, mtu, address, total⟩⟩ := line
  simp only at hk
  subst hk
  refine ⟨_, Print_of_mem h timestamp index count sequence size mtu total address, ?_⟩
  simp only [List.append_assoc]
  exact printedToken_eq socket _ (length_of_mem_socketKinds h)

/-- A line object returned by `SplitPacketLine::TryParse` has one of the six kinds. -/
theorem TryParse_kind_known {b : Build} {text : List Char} {timestamp : time_point_t}
    {line : SplitPacketLine} (h : SplitPacketLine.TryParse b text timestamp = .ok (some line)) :
    line.m_Packet.m_SocketType ∈ knownSocketKinds := by
  unfold SplitPacketLine.TryParse at h
  cases hm : regex_match SplitPacketLine.s_Regex text with
  | none =>
    rw [hm] at h
    cases h
  | some result =>
    rw [hm] at h
    simp only at h
    cases hs : SplitPacketLine.socketTypeOf (result 1) with
    | error e =>
      rw [hs] at h
      cases h
    | ok kind =>
      have hk : kind ∈ knownSocketKinds := by
        unfold SplitPacketLine.socketTypeOf at hs
        split_ifs at hs <;> cases hs <;> decide
      rw [hs] at h
      cases h₁ : from_chars_throw b.indexMax (result 2) with
      | error e => rw [h₁] at h; cases h
      | ok index =>
        rw [h₁] at h
        cases h₂ : assert b (decide (index > 0)) with
        | error e => simp only [bind, Except.bind, h₂] at h; cases h
        | ok u =>
          cases h₃ : from_chars_throw b.countMax (result 3) with
          | error e => simp only [bind, Except.bind, h₂, h₃] at h; cases h
          | ok count =>
            cases h₄ : from_chars_throw b.sequenceMax (result 4) with
            | error e => simp only [bind, Except.bind, h₂, h₃, h₄] at h; cases h
            | ok sequence =>
              cases h₅ : from_chars_throw b.sizeMax (result 5) with
              | error e => simp only [bind, Except.bind, h₂, h₃, h₄, h₅] at h; cases h
              | ok size =>
                cases h₆ : from_chars_throw b.mtuMax (result 6) with
                | error e => simp only [bind, Except.bind, h₂, h₃, h₄, h₅, h₆] at h; cases h
                | ok mtu =>
                  simp only [bind, Except.bind, h₂, h₃, h₄, h₅, h₆, pure, Except.pure,
                    Except.ok.injEq, Option.some.injEq] at h
                  subst h
                  exact hk

/-- C11: the socket-token tables of the decoder and the encoder are mutually
inverse. For each of the six socket kinds, the token that
`SplitPacketLine::Print` writes is decoded by the comparison chain of
`SplitPacketLine::TryParse`, and by `TryParse` on every line of the grammar that
carries it, back to the same kind; for each of the six tokens, `TryParse`
decodes a line carrying it to a packet for which `Print` writes the same token;
and `Print` raises "Invalid SocketType" for no line object that `TryParse`
returns. -/
theorem C11_socket_tokens_mutually_inverse (b : Build) (timestamp : time_point_t) :
    (∀ line : SplitPacketLine, line.m_Packet.m_SocketType ∈ knownSocketKinds →
      ∃ out, line.Print = .ok out
        ∧ SplitPacketLine.socketTypeOf (printedToken out) = .ok line.m_Packet.m_SocketType
        ∧ ∀ t : SplitPacketText, t.wellFormed = true → t.socket = printedToken out →
            t.inRange b = true → (b.ndebug = true ∨ 0 < decimalValue t.index) →
            ∃ decoded, SplitPacketLine.TryParse b t.text timestamp = .ok (some decoded)
              ∧ decoded.m_Packet.m_SocketType = line.m_Packet.m_SocketType)
    ∧ (∀ t : SplitPacketText, t.wellFormed = true → t.socket ∈ knownSocketTokens →
        t.inRange b = true → (b.ndebug = true ∨ 0 < decimalValue t.index) →
        ∃ decoded out, SplitPacketLine.TryParse b t.text timestamp = .ok (some decoded)
          ∧ decoded.Print = .ok out ∧ printedToken out = t.socket)
    ∧ (∀ (text : List Char) (decoded : SplitPacketLine),
        SplitPacketLine.TryParse b text timestamp = .ok (some decoded) →
        ∃ out, decoded.Print = .ok out) := by
  refine ⟨?_, ?_, ?_⟩
  · intro line hkind
    obtain ⟨token, hmem⟩ := mem_socketKinds_of_kind hkind
    obtain ⟨out, hout, htok⟩ := Print_token_of_mem hmem line rfl
    refine ⟨out, hout, ?_, ?_⟩
    · rw [htok]
      exact socketTypeOf_of_mem hmem
    · intro t ht hsoc hrange hidx
      rw [htok] at hsoc
      exact ⟨_, splitPacket_TryParse_decodes b t timestamp _ ht (hsoc ▸ hmem) hrange hidx, rfl⟩
  · intro t ht hsoc hrange hidx
    obtain ⟨kind, hmem⟩ := mem_socketKinds_of_token hsoc
    obtain ⟨out, hout, htok⟩ := Print_token_of_mem hmem
      ⟨timestamp, ⟨kind, decimalValue t.index - 1, decimalValue t.count,
        decimalValue t.sequence, decimalValue t.size, decimalValue t.mtu, t.address,
        b.totalSizeInit⟩⟩ rfl
    exact ⟨_, out, splitPacket_TryParse_decodes b t timestamp kind ht hmem hrange hidx,
      hout, htok⟩
  · intro text decoded h
    obtain ⟨token, hmem⟩ := mem_socketKinds_of_kind (TryParse_kind_known h)
    obtain ⟨out, hout, -⟩ := Print_token_of_mem hmem decoded rfl
    exact ⟨out, hout⟩

/-- C11, on the example line of the specification: its token `cl ` is decoded to
a packet for which `SplitPacketLine::Print` writes `cl ` again. -/
theorem C11_socket_tokens_mutually_inverse_witness :
    ∃ decoded out, SplitPacketLine.TryParse build16
        "<-- [cl ] Split packet   1/   4 seq    12 size  512 mtu 1200 from 10.0.0.5:27015".toList
        7 = .ok (some decoded)
      ∧ decoded.Print = .ok out ∧ printedToken out = "cl ".toList :=
  (C11_socket_tokens_mutually_inverse build16 7).2.1 exampleSplitPacket
    (by decide) (by decide) (by decide) (by decide)

/-! ### The assertion on the fragment index -/

/-- C12, the code at the failing input: the line
`<-- [cl ] Split packet   0/   4 seq    12 size  512 mtu 1200 from 10.0.0.5:27015`
is a line of the split-packet grammar with a known socket token and all numbers
in range, and the fragment index read from it is 0. In a build that keeps
assertions `assert(packet.m_Index > 0)` fails; with `NDEBUG` the guarded
decrement is skipped and the line object has the index 0. -/
theorem C12_assertion_fails_on_index_zero :
    indexZeroSplitPacket.wellFormed = true
      ∧ (indexZeroSplitPacket.socket, SocketType.Client) ∈ socketKinds
      ∧ indexZeroSplitPacket.inRange build16 = true
      ∧ indexZeroSplitPacket.text =
          "<-- [cl ] Split packet   0/   4 seq    12 size  512 mtu 1200 from 10.0.0.5:27015".toList
      ∧ from_chars_throw build16.indexMax indexZeroSplitPacket.index = .ok 0
      ∧ SplitPacketLine.TryParse build16 indexZeroSplitPacket.text 7
          = .error Failure.assertionFailed
      ∧ SplitPacketLine.TryParse build16Release indexZeroSplitPacket.text 7
          = .ok (some ⟨7, ⟨SocketType.Client, 0, 4, 12, 512, 1200, "10.0.0.5:27015".toList, 0⟩⟩) :=
  ⟨by decide, by decide, by decide, rfl, rfl, rfl, rfl⟩

/-! ### The matchers match whole lines only -/

theorem splitPacketGrammar_of_TryParse {b : Build} {text : List Char}
    {timestamp : time_point_t} (h : SplitPacketLine.TryParse b text timestamp ≠ .ok none) :
    SplitPacketGrammar text := by
  by_contra hg
  exact h (splitPacket_TryParse_of_not_grammar b timestamp hg)

theorem latencyLossGrammar_of_TryParse {F : FloatModel} {text : List Char}
    {timestamp : time_point_t}
    (h : NetChannelLatencyLossLine.TryParse F text timestamp ≠ .ok none) :
    LatencyLossGrammar text := by
  by_contra hg
  exact h (latencyLoss_TryParse_of_not_grammar F timestamp hg)

theorem packetsGrammar_of_TryParse {F : FloatModel} {text : List Char}
    {timestamp : time_point_t}
    (h : NetChannelPacketsLine.TryParse F text timestamp ≠ .ok none) :
    PacketsGrammar text := by
  by_contra hg
  exact h (packets_TryParse_of_not_grammar F timestamp hg)

theorem not_mem_of_isRun {p : Char → Bool} {w : List Char} {c : Char}
    (h : isRun p w = true) (hc : p c = false) : c ∉ w := by
  intro hmem
  have := (isRun_iff.1 h).2 c hmem
  rw [hc] at this
  exact Bool.false_ne_true this

/-- Two texts with the marker `c` at the same position, the second with no
further `c` behind it: the first cannot be shifted to the right onto the second. -/
theorem shifted_ne {A A' R R' p : List Char} {c : Char} (hlen : A.length = A'.length)
    (hp : p ≠ []) (hc : c ∉ R') : p ++ (A ++ c :: R) ≠ A' ++ c :: R' := by
  intro h
  rw [← List.append_assoc] at h
  have hpos : 0 < p.length := List.length_pos.2 hp
  rcases List.append_eq_append_iff.1 h with ⟨a', h₁, -⟩ | ⟨c', h₁, h₂⟩
  · have := congrArg List.length h₁
    simp only [List.length_append] at this
    omega
  · cases c' with
    | nil =>
      have := congrArg List.length h₁
      simp only [List.length_append, List.append_nil] at this
      omega
    | cons d c'' =>
      simp only [List.cons_append, List.cons.injEq] at h₂
      exact hc (h₂.2 ▸ by simp)

/-- A text that ends in a run of `p`-characters does not end in a character
that `p` rejects. -/
theorem run_end_ne {p : Char → Bool} {X Y w : List Char} {c : Char}
    (hw : isRun p w = true) (hc : p c = false) : X ++ w ≠ Y ++ [c] := by
  intro h
  obtain ⟨hne, hall⟩ := isRun_iff.1 hw
  have hmem : c ∈ w := by
    rcases List.append_eq_append_iff.1 h with ⟨a', -, h₂⟩ | ⟨c', -, h₂⟩
    · rw [h₂]; simp
    · cases c' with
      | nil => simp only [List.nil_append] at h₂; rw [← h₂]; simp
      | cons d c'' =>
        have := congrArg List.length h₂
        simp only [List.length_cons, List.length_append, List.length_nil] at this
        have hpos : 0 < w.length := List.length_pos.2 hne
        omega
  have := hall c hmem
  rw [hc] at this
  exact Bool.false_ne_true this

theorem splitPacket_text_eq (t : SplitPacketText) :
    t.text = ("<-- [".toList ++ t.socket) ++ ']' :: splitPacketRest t := by
  simp only [SplitPacketText.text, splitPacketRest, List.append_assoc]
  rfl

theorem bracket_not_mem_splitPacketRest {t : SplitPacketText} (ht : t.wellFormed = true) :
    ']' ∉ splitPacketRest t := by
  simp only [SplitPacketText.wellFormed, isBlanks, isDigits, Bool.and_eq_true, beq_iff_eq]
    at ht
  obtain ⟨⟨⟨⟨⟨⟨⟨⟨⟨⟨⟨⟨⟨-, -⟩, hp₁⟩, hidx⟩, hp₂⟩, hcnt⟩, hp₃⟩, hsq⟩, hp₄⟩, hsz⟩, hp₅⟩, hmt⟩,
      hhost⟩, hport⟩ := ht
  simp only [splitPacketRest, SplitPacketText.address, List.mem_append, List.mem_cons, not_or]
  exact ⟨by decide, not_mem_of_isRun hp₁ (by decide), not_mem_of_isRun hidx (by decide),
    by decide, not_mem_of_isRun hp₂ (by decide), not_mem_of_isRun hcnt (by decide),
    by decide, not_mem_of_isRun hp₃ (by decide), not_mem_of_isRun hsq (by decide),
    by decide, not_mem_of_isRun hp₄ (by decide), not_mem_of_isRun hsz (by decide),
    by decide, not_mem_of_isRun hp₅ (by decide), not_mem_of_isRun hmt (by decide),
    by decide, not_mem_of_isRun hhost (by decide), by decide,
    not_mem_of_isRun hport (by decide)⟩

theorem splitPacketGrammar_not_prepend {t p : List Char} (h : SplitPacketGrammar t)
    (hp : p ≠ []) : ¬ SplitPacketGrammar (p ++ t) := by
  obtain ⟨t₀, ht₀, rfl⟩ := h
  rintro ⟨t', ht', h'⟩
  have hrest := bracket_not_mem_splitPacketRest ht'
  simp only [SplitPacketText.wellFormed, Bool.and_eq_true, beq_iff_eq] at ht₀ ht'
  have hlen : ("<-- [".toList ++ t₀.socket).length = ("<-- [".toList ++ t'.socket).length := by
    simp only [List.length_append, ht₀.1.1.1.1.1.1.1.1.1.1.1.1.1, ht'.1.1.1.1.1.1.1.1.1.1.1.1.1]
  rw [splitPacket_text_eq t₀, splitPacket_text_eq t'] at h'
  exact shifted_ne hlen hp hrest h'

theorem splitPacketGrammar_not_append {t : List Char} {c : Char}
    (hc : Atom.digit.test c = false) : ¬ SplitPacketGrammar (t ++ [c]) := by
  rintro ⟨t', ht', h'⟩
  simp only [SplitPacketText.wellFormed, Bool.and_eq_true] at ht'
  have hport : isRun Atom.digit.test t'.port = true := ht'.2
  have hends : t'.text = ("<-- [".toList ++ t'.socket ++ "] Split packet".toList ++ t'.pad₁
      ++ t'.index ++ ['/'] ++ t'.pad₂ ++ t'.count ++ " seq".toList ++ t'.pad₃ ++ t'.sequence
      ++ " size".toList ++ t'.pad₄ ++ t'.size ++ " mtu".toList ++ t'.pad₅ ++ t'.mtu
      ++ " from ".toList ++ t'.host ++ [':']) ++ t'.port := by
    simp [SplitPacketText.text, SplitPacketText.address]
  rw [hends] at h'
  exact run_end_ne hport hc h'.symm

theorem latencyLossGrammar_not_prepend {t p : List Char} (h : LatencyLossGrammar t)
    (hp : p ≠ []) : ¬ LatencyLossGrammar (p ++ t) := by
  obtain ⟨l₀, p₀, -, -, rfl⟩ := h
  rintro ⟨l, q, hl, hq, h'⟩
  simp only [DecimalText.wellFormed, isDigits, Bool.and_eq_true] at hl hq
  have hrest : '-' ∉ " latency: ".toList ++ (l.whole ++ ('.' :: (l.fraction
      ++ (", loss ".toList ++ (q.whole ++ ('.' :: q.fraction)))))) := by
    simp only [List.mem_append, List.mem_cons, not_or]
    exact ⟨by decide, not_mem_of_isRun hl.1 (by decide), by decide,
      not_mem_of_isRun hl.2 (by decide), by decide, not_mem_of_isRun hq.1 (by decide),
      by decide, not_mem_of_isRun hq.2 (by decide)⟩
  have e₀ : latencyLossText l₀.text p₀.text
      = [] ++ '-' :: (" latency: ".toList ++ (l₀.text ++ (", loss ".toList ++ p₀.text))) := rfl
  have e : latencyLossText l.text q.text
      = [] ++ '-' :: (" latency: ".toList ++ (l.whole ++ ('.' :: (l.fraction
          ++ (", loss ".toList ++ (q.whole ++ ('.' :: q.fraction))))))) := by
    simp [latencyLossText, DecimalText.text]
  rw [e₀, e] at h'
  exact shifted_ne rfl hp hrest h'

theorem latencyLossGrammar_not_append {t : List Char} {c : Char}
    (hc : Atom.digit.test c = false) : ¬ LatencyLossGrammar (t ++ [c]) := by
  rintro ⟨l, q, -, hq, h'⟩
  simp only [DecimalText.wellFormed, isDigits, Bool.and_eq_true] at hq
  have hends : latencyLossText l.text q.text
      = ("- latency: ".toList ++ l.text ++ ", loss ".toList ++ q.whole ++ ['.'])
          ++ q.fraction := by
    simp [latencyLossText, DecimalText.text]
  rw [hends] at h'
  exact run_end_ne hq.2 hc h'.symm

theorem packetsGrammar_not_prepend {t p : List Char} (h : PacketsGrammar t)
    (hp : p ≠ []) : ¬ PacketsGrammar (p ++ t) := by
  obtain ⟨i₀, o₀, -, -, rfl⟩ := h
  rintro ⟨i, o, hi, ho, h'⟩
  simp only [DecimalText.wellFormed, isDigits, Bool.and_eq_true] at hi ho
  have hrest : '-' ∉ " packets: in ".toList ++ (i.whole ++ ('.' :: (i.fraction
      ++ ("/s, out ".toList ++ (o.whole ++ ('.' :: (o.fraction ++ "/s".toList))))))) := by
    simp only [List.mem_append, List.mem_cons, not_or]
    exact ⟨by decide, not_mem_of_isRun hi.1 (by decide), by decide,
      not_mem_of_isRun hi.2 (by decide), by decide, not_mem_of_isRun ho.1 (by decide),
      by decide, not_mem_of_isRun ho.2 (by decide), by decide⟩
  have e₀ : packetsText i₀.text o₀.text
      = [] ++ '-' :: (" packets: in ".toList
          ++ (i₀.text ++ ("/s, out ".toList ++ (o₀.text ++ "/s".toList)))) := rfl
  have e : packetsText i.text o.text
      = [] ++ '-' :: (" packets: in ".toList ++ (i.whole ++ ('.' :: (i.fraction
          ++ ("/s, out ".toList ++ (o.whole ++ ('.' :: (o.fraction ++ "/s".toList)))))))) := by
    simp [packetsText, DecimalText.text]
  rw [e₀, e] at h'
  exact shifted_ne rfl hp hrest h'

theorem packetsGrammar_not_append {t : List Char} (c : Char) (h : PacketsGrammar t) :
    ¬ PacketsGrammar (t ++ [c]) := by
  obtain ⟨i₀, o₀, -, -, rfl⟩ := h
  rintro ⟨i, o, -, -, h'⟩
  have h'' := congrArg List.reverse h'
  simp [packetsText] at h''

/-- C13: each matcher matches the whole line only. For every text `t` that
`SplitPacketLine::TryParse`, `NetChannelLatencyLossLine::TryParse` or
`NetChannelPacketsLine::TryParse` accepts (its grammar matches: the result is
not `nullptr`), that matcher returns `nullptr` for `t` with any non-empty string
put in front and for `t` followed by a character that is not a decimal digit. -/
theorem C13_matchers_match_whole_line (b : Build) (F : FloatModel) (t : List Char)
    (timestamp : time_point_t) :
    (SplitPacketLine.TryParse b t timestamp ≠ .ok none →
      (∀ p, p ≠ [] → SplitPacketLine.TryParse b (p ++ t) timestamp = .ok none)
        ∧ ∀ c, Atom.digit.test c = false →
            SplitPacketLine.TryParse b (t ++ [c]) timestamp = .ok none)
    ∧ (NetChannelLatencyLossLine.TryParse F t timestamp ≠ .ok none →
      (∀ p, p ≠ [] → NetChannelLatencyLossLine.TryParse F (p ++ t) timestamp = .ok none)
        ∧ ∀ c, Atom.digit.test c = false →
            NetChannelLatencyLossLine.TryParse F (t ++ [c]) timestamp = .ok none)
    ∧ (NetChannelPacketsLine.TryParse F t timestamp ≠ .ok none →
      (∀ p, p ≠ [] → NetChannelPacketsLine.TryParse F (p ++ t) timestamp = .ok none)
        ∧ ∀ c, Atom.digit.test c = false →
            NetChannelPacketsLine.TryParse F (t ++ [c]) timestamp = .ok none) := by
  refine ⟨fun h => ⟨fun p hp => ?_, fun c hc => ?_⟩, fun h => ⟨fun p hp => ?_, fun c hc => ?_⟩,
    fun h => ⟨fun p hp => ?_, fun c _ => ?_⟩⟩
  · exact splitPacket_TryParse_of_not_grammar b timestamp
      (splitPacketGrammar_not_prepend (splitPacketGrammar_of_TryParse h) hp)
  · exact splitPacket_TryParse_of_not_grammar b timestamp (splitPacketGrammar_not_append hc)
  · exact latencyLoss_TryParse_of_not_grammar F timestamp
      (latencyLossGrammar_not_prepend (latencyLossGrammar_of_TryParse h) hp)
  · exact latencyLoss_TryParse_of_not_grammar F timestamp (latencyLossGrammar_not_append hc)
  · exact packets_TryParse_of_not_grammar F timestamp
      (packetsGrammar_not_prepend (packetsGrammar_of_TryParse h) hp)
  · exact packets_TryParse_of_not_grammar F timestamp
      (packetsGrammar_not_append c (packetsGrammar_of_TryParse h))

/-- C13, on the example lines: a blank in front of, or a carriage return behind,
an accepted line makes each matcher return `nullptr`. -/
theorem C13_matchers_match_whole_line_witness :
    (SplitPacketLine.TryParse build16 (" ".toList ++
        "<-- [cl ] Split packet   1/   4 seq    12 size  512 mtu 1200 from 10.0.0.5:27015".toList)
        7 = .ok none
      ∧ SplitPacketLine.TryParse build16
        ("<-- [cl ] Split packet   1/   4 seq    12 size  512 mtu 1200 from 10.0.0.5:27015".toList
          ++ ['\r']) 7 = .ok none)
    ∧ (NetChannelLatencyLossLine.TryParse exactDecimal
        (" ".toList ++ "- latency: 0.045, loss 0.02".toList) 7 = .ok none
      ∧ NetChannelLatencyLossLine.TryParse exactDecimal
        ("- latency: 0.045, loss 0.02".toList ++ ['\r']) 7 = .ok none)
    ∧ (NetChannelPacketsLine.TryParse exactDecimal
        (" ".toList ++ "- packets: in 66.7/s, out 33.25/s".toList) 7 = .ok none
      ∧ NetChannelPacketsLine.TryParse exactDecimal
        ("- packets: in 66.7/s, out 33.25/s".toList ++ ['\r']) 7 = .ok none) := by
  have h₁ := (C13_matchers_match_whole_line build16 exactDecimal
    "<-- [cl ] Split packet   1/   4 seq    12 size  512 mtu 1200 from 10.0.0.5:27015".toList
    7).1 (by
      intro h
      have h' : SplitPacketLine.TryParse build16
          "<-- [cl ] Split packet   1/   4 seq    12 size  512 mtu 1200 from 10.0.0.5:27015".toList
          7 = .ok (some ⟨7, ⟨SocketType.Client, 0, 4, 12, 512, 1200,
            "10.0.0.5:27015".toList, 0⟩⟩) := rfl
      rw [h'] at h
      cases h)
  have h₂ := (C13_matchers_match_whole_line build16 exactDecimal
    "- latency: 0.045, loss 0.02".toList 7).2.1 (by
      intro h
      have h' : NetChannelLatencyLossLine.TryParse exactDecimal
          "- latency: 0.045, loss 0.02".toList 7 = .ok (some ⟨7, (45, 3), (2, 2)⟩) := rfl
      rw [h'] at h
      cases h)
  have h₃ := (C13_matchers_match_whole_line build16 exactDecimal
    "- packets: in 66.7/s, out 33.25/s".toList 7).2.2 (by
      intro h
      have h' : NetChannelPacketsLine.TryParse exactDecimal
          "- packets: in 66.7/s, out 33.25/s".toList 7
            = .ok (some ⟨7, (667, 1), (3325, 2)⟩) := rfl
      rw [h'] at h
      cases h)
  exact ⟨⟨h₁.1 _ (by decide), h₁.2 '\r' (by decide)⟩,
    ⟨h₂.1 _ (by decide), h₂.2 '\r' (by decide)⟩,
    ⟨h₃.1 _ (by decide), h₃.2 '\r' (by decide)⟩⟩

/-! ### The net-channel matchers accept plain decimals only -/

theorem decimalText_plain {d : DecimalText} (hd : d.wellFormed = true) :
    notPlainDecimal d.text = false := by
  simp only [DecimalText.wellFormed, isDigits, Bool.and_eq_true] at hd
  obtain ⟨hw, hf⟩ := hd
  have hne := (isRun_iff.1 hw).1
  have hall := (isRun_iff.1 hw).2
  have h₁ : lacksFraction d.text = false := by
    simp [lacksFraction, DecimalText.text]
  have h₂ : hasLeadingSign d.text = false := by
    cases hwhole : d.whole with
    | nil => exact absurd hwhole hne
    | cons a w =>
      have ha : Atom.digit.test a = true := hall a (by rw [hwhole]; simp)
      have hm : a ≠ '-' := by rintro rfl; exact absurd ha (by decide)
      have hp : a ≠ '+' := by rintro rfl; exact absurd ha (by decide)
      simp [hasLeadingSign, DecimalText.text, hwhole, hm, hp]
  have h₃ : hasExponent d.text = false := by
    have e₁ : 'e' ∉ d.text := by
      simp only [DecimalText.text, List.mem_append, List.mem_cons, not_or]
      exact ⟨not_mem_of_isRun hw (by decide), by decide, not_mem_of_isRun hf (by decide)⟩
    have e₂ : 'E' ∉ d.text := by
      simp only [DecimalText.text, List.mem_append, List.mem_cons, not_or]
      exact ⟨not_mem_of_isRun hw (by decide), by decide, not_mem_of_isRun hf (by decide)⟩
    simp [hasExponent, e₁, e₂]
  simp [notPlainDecimal, h₁, h₂, h₃]

theorem decimalText_avoids {d : DecimalText} (hd : d.wellFormed = true) (c : Char)
    (hc : isNumberChar c = false) : ∀ x ∈ d.text, (x != c) = true := by
  simp only [DecimalText.wellFormed, isDigits, Bool.and_eq_true] at hd
  intro x hx
  simp only [bne_iff_ne, ne_eq]
  rintro rfl
  simp only [DecimalText.text, List.mem_append, List.mem_cons] at hx
  have hdig : Atom.digit.test x = false := by
    simp only [isNumberChar, Bool.or_eq_false_iff] at hc
    exact hc.1.1.1.1.1
  rcases hx with hx | rfl | hx
  · exact not_mem_of_isRun hd.1 hdig hx
  · simp [isNumberChar] at hc
  · exact not_mem_of_isRun hd.2 hdig hx

theorem numberText_avoids {w : List Char} (hw : isNumberText w = true) (c : Char)
    (hc : isNumberChar c = false) : ∀ x ∈ w, (x != c) = true := by
  intro x hx
  simp only [bne_iff_ne, ne_eq]
  rintro rfl
  have := List.all_eq_true.1 hw x hx
  rw [hc] at this
  exact Bool.false_ne_true this

/-- A latency/loss line whose first number is written with number characters
matches the grammar only if both its numbers are plain decimals. -/
theorem latencyLossGrammar_numbers {L P : List Char} (hL : isNumberText L = true)
    (h : LatencyLossGrammar (latencyLossText L P)) :
    notPlainDecimal L = false ∧ notPlainDecimal P = false := by
  obtain ⟨l, p, hl, hp, h⟩ := h
  simp only [latencyLossText] at h
  have h := List.append_cancel_left h
  have h' : L ++ ',' :: (" loss ".toList ++ P) = l.text ++ ',' :: (" loss ".toList ++ p.text) := h
  obtain ⟨e₁, e₂⟩ := run_append_inj (numberText_avoids hL ',' (by decide))
    (decimalText_avoids hl ',' (by decide)) (by simp) (by simp) h'
  have e₃ : P = p.text := List.append_cancel_left (List.cons.inj e₂).2
  rw [e₁, e₃]
  exact ⟨decimalText_plain hl, decimalText_plain hp⟩

/-- A packet-rate line whose first number is written with number characters
matches the grammar only if both its numbers are plain decimals. -/
theorem packetsGrammar_numbers {I O : List Char} (hI : isNumberText I = true)
    (h : PacketsGrammar (packetsText I O)) :
    notPlainDecimal I = false ∧ notPlainDecimal O = false := by
  obtain ⟨i, o, hi, ho, h⟩ := h
  simp only [packetsText] at h
  have h := List.append_cancel_left h
  have h' : I ++ '/' :: ("s, out ".toList ++ (O ++ "/s".toList))
      = i.text ++ '/' :: ("s, out ".toList ++ (o.text ++ "/s".toList)) := h
  obtain ⟨e₁, e₂⟩ := run_append_inj (numberText_avoids hI '/' (by decide))
    (decimalText_avoids hi '/' (by decide)) (by simp) (by simp) h'
  have e₃ : O = o.text :=
    List.append_cancel_right (List.append_cancel_left (List.cons.inj e₂).2)
  rw [e₁, e₃]
  exact ⟨decimalText_plain hi, decimalText_plain ho⟩

/-- C14: the net-channel matchers accept only unsigned numbers written as
digits, a dot, digits. For every line `- latency: L, loss P` respectively
`- packets: in L/s, out P/s` in which one of the two numbers has no fractional
part, a leading sign or an exponent, `NetChannelLatencyLossLine::TryParse`
respectively `NetChannelPacketsLine::TryParse` returns `nullptr`. (The first
number is any text of digits, dots, signs and exponent letters; the second may
be any text.) -/
theorem C14_netchannel_plain_decimals_only (F : FloatModel) (L P : List Char)
    (timestamp : time_point_t) (hL : isNumberText L = true)
    (hbad : notPlainDecimal L = true ∨ notPlainDecimal P = true) :
    NetChannelLatencyLossLine.TryParse F (latencyLossText L P) timestamp = .ok none
      ∧ NetChannelPacketsLine.TryParse F (packetsText L P) timestamp = .ok none := by
  constructor
  · apply latencyLoss_TryParse_of_not_grammar
    intro h
    obtain ⟨h₁, h₂⟩ := latencyLossGrammar_numbers hL h
    rcases hbad with hb | hb
    · rw [h₁] at hb; exact Bool.false_ne_true hb
    · rw [h₂] at hb; exact Bool.false_ne_true hb
  · apply packets_TryParse_of_not_grammar
    intro h
    obtain ⟨h₁, h₂⟩ := packetsGrammar_numbers hL h
    rcases hbad with hb | hb
    · rw [h₁] at hb; exact Bool.false_ne_true hb
    · rw [h₂] at hb; exact Bool.false_ne_true hb

/-- C14, on the examples of the claim: the numbers `45` (no fractional part),
`-0.5` (leading sign) and `1.0e3` (exponent), in the first or the second place,
make both matchers return `nullptr`. -/
theorem C14_netchannel_plain_decimals_only_witness :
    (NetChannelLatencyLossLine.TryParse exactDecimal "- latency: 45, loss 0.02".toList 7
        = .ok none
      ∧ NetChannelPacketsLine.TryParse exactDecimal "- packets: in 45/s, out 0.02/s".toList 7
        = .ok none)
    ∧ (NetChannelLatencyLossLine.TryParse exactDecimal "- latency: -0.5, loss 0.02".toList 7
        = .ok none
      ∧ NetChannelPacketsLine.TryParse exactDecimal "- packets: in -0.5/s, out 0.02/s".toList 7
        = .ok none)
    ∧ (NetChannelLatencyLossLine.TryParse exactDecimal "- latency: 0.045, loss 1.0e3".toList 7
        = .ok none
      ∧ NetChannelPacketsLine.TryParse exactDecimal
          "- packets: in 0.045/s, out 1.0e3/s".toList 7
        = .ok none) :=
  ⟨C14_netchannel_plain_decimals_only exactDecimal "45".toList "0.02".toList 7
      (by decide) (Or.inl (by decide)),
    C14_netchannel_plain_decimals_only exactDecimal "-0.5".toList "0.02".toList 7
      (by decide) (Or.inl (by decide)),
    C14_netchannel_plain_decimals_only exactDecimal "0.045".toList "1.0e3".toList 7
      (by decide) (Or.inr (by decide))⟩

/-! ### Rounding to binary32 -/

theorem roundHalfEven_bounds (a den : Nat) :
    a / den ≤ roundHalfEven a den ∧ roundHalfEven a den ≤ a / den + 1 := by
  unfold roundHalfEven
  split_ifs <;> omega

/-- The rounded quotient is at most half a step away from the quotient. Stated
without fractions: twice the distance of `m * den` from `a` is at most `den`. -/
theorem roundHalfEven_near (a den : Nat) (hden : 0 < den) :
    2 * ((roundHalfEven a den : Int) * den - a) ≤ den
      ∧ 2 * ((a : Int) - (roundHalfEven a den : Int) * den) ≤ den := by
  have hdm := Nat.div_add_mod a den
  have hlt := Nat.mod_lt a hden
  unfold roundHalfEven
  generalize a / den = q at *
  generalize a % den = r at *
  subst hdm
  have hr : (r : Int) < den := by exact_mod_cast hlt
  have hnn : (0 : Int) ≤ (r : Int) := Int.natCast_nonneg _
  split_ifs with h₁ h₂ h₃
  · have h₁' : 2 * (r : Int) < den := by exact_mod_cast h₁
    push_cast
    constructor <;> nlinarith
  · have h₂' : (den : Int) < 2 * (r : Int) := by exact_mod_cast h₂
    push_cast
    constructor <;> nlinarith
  · have h₁' : (den : Int) ≤ 2 * (r : Int) := by exact_mod_cast Nat.not_lt.1 h₁
    have h₂' : 2 * (r : Int) ≤ den := by exact_mod_cast Nat.not_lt.1 h₂
    push_cast
    constructor <;> nlinarith
  · have h₁' : (den : Int) ≤ 2 * (r : Int) := by exact_mod_cast Nat.not_lt.1 h₁
    have h₂' : 2 * (r : Int) ≤ den := by exact_mod_cast Nat.not_lt.1 h₂
    push_cast
    constructor <;> nlinarith

/-- No multiple of `den` is closer to `a` than the rounded one. -/
theorem roundHalfEven_nearest (a den : Nat) (hden : 0 < den) (n : Nat) :
    |(roundHalfEven a den : Int) * den - a| ≤ |(n : Int) * den - a| := by
  obtain ⟨h₁, h₂⟩ := roundHalfEven_near a den hden
  have hd : (0 : Int) < den := by exact_mod_cast hden
  rcases lt_trichotomy (n : Int) (roundHalfEven a den : Int) with h | h | h
  · have hstep : (n : Int) * den + den ≤ (roundHalfEven a den : Int) * den := by nlinarith
    have : |(roundHalfEven a den : Int) * den - a| ≤ -((n : Int) * den - a) := by
      rw [abs_le]; constructor <;> linarith
    exact this.trans (neg_le_abs _)
  · rw [h]
  · have hstep : (roundHalfEven a den : Int) * den + den ≤ (n : Int) * den := by nlinarith
    have : |(roundHalfEven a den : Int) * den - a| ≤ (n : Int) * den - a := by
      rw [abs_le]; constructor <;> linarith
    exact this.trans (le_abs_self _)

/-- Rounding does not cross a multiple of `den`. -/
theorem roundHalfEven_le (a den : Nat) (hden : 0 < den) (n : Nat) (h : a ≤ n * den) :
    roundHalfEven a den ≤ n := by
  have hq : a / den ≤ n := Nat.div_le_of_le_mul (by rw [Nat.mul_comm]; exact h)
  rcases Nat.lt_or_ge (a / den) n with hlt | hge
  · exact (roundHalfEven_bounds a den).2.trans hlt
  · have hqn : a / den = n := Nat.le_antisymm hq hge
    have hdm := Nat.div_add_mod a den
    rw [hqn] at hdm
    have hmod : a % den = 0 := by
      have : den * n + a % den ≤ n * den := by rw [hdm]; exact h
      rw [Nat.mul_comm] at this
      omega
    unfold roundHalfEven
    rw [hmod, hqn]
    simp [hden]

theorem findShift_some {a d : Nat} {fuel s₀ s : Nat} (h : findShift a d fuel s₀ = some s) :
    a < 16777216 * 2 ^ s * d ∧ s₀ ≤ s ∧ (s₀ < s → 16777216 * 2 ^ (s - 1) * d ≤ a) := by
  induction fuel generalizing s₀ with
  | zero => simp [findShift] at h
  | succ fuel ih =>
    unfold findShift at h
    split_ifs at h with hlt
    · cases h
      exact ⟨hlt, le_refl _, fun hcontra => absurd hcontra (lt_irrefl _)⟩
    · obtain ⟨h₁, h₂, h₃⟩ := ih h
      refine ⟨h₁, by omega, fun _ => ?_⟩
      rcases Nat.eq_or_lt_of_le h₂ with heq | hlt'
      · rw [← heq, Nat.add_sub_cancel]
        exact Nat.not_lt.1 hlt
      · exact h₃ hlt'

theorem findShift_none {a d : Nat} {fuel s₀ : Nat} (h : findShift a d fuel s₀ = none) :
    ∀ s, s₀ ≤ s → s < s₀ + fuel → 16777216 * 2 ^ s * d ≤ a := by
  induction fuel generalizing s₀ with
  | zero => intro s h₁ h₂; omega
  | succ fuel ih =>
    unfold findShift at h
    split_ifs at h with hlt
    intro s h₁ h₂
    rcases Nat.eq_or_lt_of_le h₁ with heq | hlt'
    · rw [← heq]
      exact Nat.not_lt.1 hlt
    · exact ih h s hlt' (by omega)

theorem two_pow_pred {s : Nat} (hs : 0 < s) : 2 ^ s = 2 * 2 ^ (s - 1) := by
  obtain ⟨k, rfl⟩ := Nat.exists_eq_succ_of_ne_zero (Nat.pos_iff_ne_zero.1 hs)
  rw [Nat.succ_sub_one, pow_succ, Nat.mul_comm]

/-- The conversion of a quotient in the range of `float` succeeds, and gives a
value of the format that no other value of the format beats in distance. -/
theorem ofQuotient_nearest (a d : Nat) (hd : 0 < d)
    (hrange : a = 0 ∨ (d ≤ a ∧ a ≤ Binary32.maxUnits * d)) :
    ∃ f, Binary32.ofQuotient a d = some f ∧ f.Representable
      ∧ ∀ g : Binary32, g.Representable →
          |(f.units : Int) * d - a| ≤ |(g.units : Int) * d - a| := by
  have hmax : Binary32.maxUnits = 16777215 * 2 ^ 253 := rfl
  have ha_le : a ≤ 16777215 * 2 ^ 253 * d := by
    rcases hrange with h | h
    · rw [h]; exact Nat.zero_le _
    · exact hmax ▸ h.2
  have hp253 : 0 < 2 ^ 253 := Nat.pow_pos (by decide)
  unfold Binary32.ofQuotient
  cases hfs : findShift a d 255 0 with
  | none =>
    exfalso
    have h₁ := findShift_none hfs 253 (by omega) (by omega)
    have h₂ : 16777215 * 2 ^ 253 * d < 16777216 * 2 ^ 253 * d :=
      Nat.mul_lt_mul_of_pos_right (Nat.mul_lt_mul_of_pos_right (by decide) hp253) hd
    omega
  | some s =>
    obtain ⟨hlt, -, hmin⟩ := findShift_some hfs
    have hps : 0 < 2 ^ s := Nat.pow_pos (by decide)
    have hden : 0 < d * 2 ^ s := Nat.mul_pos hd hps
    have hlt' : a < d * 2 ^ s * 16777216 := by
      have : 16777216 * 2 ^ s * d = d * 2 ^ s * 16777216 := by ring
      omega
    have hq_lt : a / (d * 2 ^ s) < 16777216 := Nat.div_lt_of_lt_mul hlt'
    obtain ⟨hb₁, hb₂⟩ := roundHalfEven_bounds a (d * 2 ^ s)
    have hbig : 0 < s → 8388608 * (d * 2 ^ s) ≤ a := by
      intro hs
      have := hmin hs
      have e : 8388608 * (d * 2 ^ s) = 16777216 * 2 ^ (s - 1) * d := by
        rw [two_pow_pred hs]; ring
      omega
    have hs253 : s ≤ 253 := by
      by_contra hcon
      have hs : 0 < s := by omega
      have h₁ := hmin hs
      have h₂ : 2 ^ 253 ≤ 2 ^ (s - 1) := Nat.pow_le_pow_right (by decide) (by omega)
      have h₃ : 16777216 * 2 ^ 253 * d ≤ 16777216 * 2 ^ (s - 1) * d :=
        Nat.mul_le_mul_right _ (Nat.mul_le_mul_left _ h₂)
      have h₄ : 16777215 * 2 ^ 253 * d < 16777216 * 2 ^ 253 * d :=
        Nat.mul_lt_mul_of_pos_right (Nat.mul_lt_mul_of_pos_right (by decide) hp253) hd
      omega
    have hle_max : roundHalfEven a (d * 2 ^ s) * 2 ^ s ≤ Binary32.maxUnits := by
      have e : 16777215 * 2 ^ 253 = 16777215 * 2 ^ (253 - s) * 2 ^ s := by
        rw [Nat.mul_assoc, ← pow_add, Nat.sub_add_cancel hs253]
      have h₁ : a ≤ 16777215 * 2 ^ (253 - s) * (d * 2 ^ s) := by
        have : 16777215 * 2 ^ (253 - s) * (d * 2 ^ s)
            = 16777215 * 2 ^ (253 - s) * 2 ^ s * d := by ring
        rw [this, ← e]
        exact ha_le
      have h₂ := roundHalfEven_le a (d * 2 ^ s) hden _ h₁
      rw [hmax, e]
      exact Nat.mul_le_mul_right _ h₂
    have hnot_under : ¬ (roundHalfEven a (d * 2 ^ s) * 2 ^ s = 0 ∧ a ≠ 0) := by
      rintro ⟨hz, hne⟩
      have hda : d ≤ a := by
        rcases hrange with h | h
        · exact absurd h hne
        · exact h.1
      have hq : 1 ≤ a / (d * 2 ^ s) := by
        rw [Nat.le_div_iff_mul_le hden]
        rcases Nat.eq_zero_or_pos s with h0 | hpos
        · subst h0; simpa using hda
        · have := hbig hpos; omega
      have hm : 0 < roundHalfEven a (d * 2 ^ s) := by omega
      have := Nat.mul_pos hm hps
      omega
    simp only [if_neg hnot_under, if_neg (Nat.not_lt.2 hle_max)]
    refine ⟨_, rfl, ?_, ?_⟩
    · rcases Nat.lt_or_ge (roundHalfEven a (d * 2 ^ s)) 16777216 with hm | hm
      · exact ⟨_, s, hm, hs253, rfl⟩
      · have hm' : roundHalfEven a (d * 2 ^ s) = 16777216 := by omega
        have hs252 : s + 1 ≤ 253 := by
          by_contra hcon
          have hs : s = 253 := by omega
          rw [hm', hs, hmax] at hle_max
          have : 16777215 * 2 ^ 253 < 16777216 * 2 ^ 253 :=
            Nat.mul_lt_mul_of_pos_right (by decide) hp253
          omega
        refine ⟨8388608, s + 1, by decide, hs252, ?_⟩
        show roundHalfEven a (d * 2 ^ s) * 2 ^ s = 8388608 * 2 ^ (s + 1)
        rw [hm', pow_succ]; ring
    · rintro g ⟨m', s', hm', -, hg⟩
      show |((roundHalfEven a (d * 2 ^ s) * 2 ^ s : Nat) : Int) * d - a| ≤ _
      have hcast : ((roundHalfEven a (d * 2 ^ s) * 2 ^ s : Nat) : Int) * d
          = (roundHalfEven a (d * 2 ^ s) : Int) * ((d * 2 ^ s : Nat) : Int) := by
        push_cast; ring
      rw [hcast]
      rcases le_or_lt s s' with hss | hss
      · have hgn : (g.units : Int) * d
            = ((m' * 2 ^ (s' - s) : Nat) : Int) * ((d * 2 ^ s : Nat) : Int) := by
          have : g.units * d = m' * 2 ^ (s' - s) * (d * 2 ^ s) := by
            rw [hg]
            have : 2 ^ s' = 2 ^ (s' - s) * 2 ^ s := by
              rw [← pow_add, Nat.sub_add_cancel hss]
            rw [this]; ring
          exact_mod_cast this
        rw [hgn]
        exact roundHalfEven_nearest a (d * 2 ^ s) hden _
      · have hs : 0 < s := by omega
        have h₁ := roundHalfEven_nearest a (d * 2 ^ s) hden 8388608
        have h₂ : g.units * d ≤ 8388608 * (d * 2 ^ s) := by
          rw [hg]
          have hp : 2 ^ s' ≤ 2 ^ (s - 1) := Nat.pow_le_pow_right (by decide) (by omega)
          have h₃ : m' * 2 ^ s' ≤ 16777216 * 2 ^ (s - 1) :=
            Nat.mul_le_mul (by omega) hp
          have h₄ : m' * 2 ^ s' * d ≤ 16777216 * 2 ^ (s - 1) * d := Nat.mul_le_mul_right _ h₃
          have e : 8388608 * (d * 2 ^ s) = 16777216 * 2 ^ (s - 1) * d := by
            rw [two_pow_pred hs]; ring
          omega
        have h₃ := hbig hs
        have h₂' : (g.units : Int) * d ≤ ((8388608 : Nat) : Int) * ((d * 2 ^ s : Nat) : Int) := by
          exact_mod_cast h₂
        have h₃' : ((8388608 : Nat) : Int) * ((d * 2 ^ s : Nat) : Int) ≤ (a : Int) := by
          exact_mod_cast h₃
        have h₄ : |((8388608 : Nat) : Int) * ((d * 2 ^ s : Nat) : Int) - a|
            ≤ |(g.units : Int) * d - a| := by
          rw [abs_of_nonpos (by linarith), abs_of_nonpos (by linarith)]
          linarith
        exact h₁.trans h₄

theorem takeWhile_run_cons {p : Char → Bool} {w r : List Char} {c : Char}
    (hw : ∀ x ∈ w, p x = true) (hc : p c = false) :
    (w ++ c :: r).takeWhile p = w ∧ (w ++ c :: r).dropWhile p = c :: r := by
  induction w with
  | nil => simp [List.takeWhile, List.dropWhile, hc]
  | cons a w ih =>
    have ha := hw a (List.mem_cons_self _ _)
    obtain ⟨h₁, h₂⟩ := ih (fun x hx => hw x (List.mem_cons_of_mem _ hx))
    simp [List.takeWhile, List.dropWhile, ha, h₁, h₂]

theorem ofText_text {d : DecimalText} (hd : d.wellFormed = true) :
    DecimalText.ofText d.text = some d := by
  have hd' := hd
  simp only [DecimalText.wellFormed, isDigits, Bool.and_eq_true] at hd'
  obtain ⟨h₁, h₂⟩ := takeWhile_run_cons (r := d.fraction) (isRun_iff.1 hd'.1).2
    (show Atom.digit.test '.' = false by decide)
  unfold DecimalText.ofText
  rw [DecimalText.text, h₂]
  simp only [h₁, isDigits, hd'.1, hd'.2, Bool.and_self, if_true]

theorem denominator_pos (d : DecimalText) : 0 < d.denominator :=
  Nat.pow_pos (by decide)

/-- On a decimal within the range of `float`, the conversion succeeds and gives
a float nearest the decimal. -/
theorem binary32_from_chars_nearest {d : DecimalText} (hd : d.wellFormed = true)
    (hr : d.inFloatRange = true) :
    ∃ f : Binary32, binary32.from_chars d.text = some f ∧ f.IsNearest d := by
  have hr' : d.numerator = 0 ∨ (8388608 * d.denominator ≤ d.numerator
      ∧ d.numerator ≤ Binary32.maxUnits * d.denominator) := by
    simpa [DecimalText.inFloatRange] using hr
  have hrange : d.numerator = 0
      ∨ (d.denominator ≤ d.numerator ∧ d.numerator ≤ Binary32.maxUnits * d.denominator) :=
    hr'.imp id (fun h => ⟨by omega, h.2⟩)
  obtain ⟨f, hf, hrep, hnear⟩ := ofQuotient_nearest d.numerator d.denominator
    (denominator_pos d) hrange
  refine ⟨f, ?_, hrep, hnear⟩
  show (match DecimalText.ofText d.text with
    | some d => Binary32.ofQuotient d.numerator d.denominator
    | none => none) = some f
  rw [ofText_text hd]
  exact hf

/-! ### The net-channel matchers and the range of `float` -/

set_option maxRecDepth 8192

/-- C7, refuted as stated: in `- latency: L, loss P` with `L = 10^39` written out
and `P = 0.02`, both numbers are digits, a dot, digits, but `L` is above
`FLT_MAX`: the conversion fails and `NetChannelLatencyLossLine::TryParse` throws
instead of returning a line object. -/
theorem C7_latencyLoss_out_of_range_throws :
    DecimalText.wellFormed ⟨"1000000000000000000000000000000000000000".toList, "0".toList⟩ = true
      ∧ DecimalText.wellFormed ⟨"0".toList, "02".toList⟩ = true
      ∧ NetChannelLatencyLossLine.TryParse binary32
          "- latency: 1000000000000000000000000000000000000000.0, loss 0.02".toList 7
          = .error (.fromCharsFailed "1000000000000000000000000000000000000000.0".toList)
      ∧ ∀ line, NetChannelLatencyLossLine.TryParse binary32
          "- latency: 1000000000000000000000000000000000000000.0, loss 0.02".toList 7
          ≠ .ok (some line) := by
  have e : NetChannelLatencyLossLine.TryParse binary32
      "- latency: 1000000000000000000000000000000000000000.0, loss 0.02".toList 7
      = .error (.fromCharsFailed "1000000000000000000000000000000000000000.0".toList) := rfl
  refine ⟨rfl, rfl, e, ?_⟩
  intro line h
  rw [e] at h
  cases h

/-- C7 as amended: for every line `- latency: L, loss P` in which L and P are
decimal floats (digits, a dot, digits) within the range of `float` (zero, or
between `FLT_MIN` and `FLT_MAX`),
`NetChannelLatencyLossLine::TryParse` returns a line object whose latency is a
float nearest L and whose loss is a float nearest P: the first field goes to
the latency, the second to the loss. -/
theorem C7_latencyLoss_decodes_nearest (l p : DecimalText) (timestamp : time_point_t)
    (hl : l.wellFormed = true) (hp : p.wellFormed = true)
    (hlr : l.inFloatRange = true) (hpr : p.inFloatRange = true) :
    ∃ line : NetChannelLatencyLossLine binary32,
      NetChannelLatencyLossLine.TryParse binary32 (latencyLossText l.text p.text) timestamp
        = .ok (some line)
      ∧ Binary32.IsNearest line.m_Latency l ∧ Binary32.IsNearest line.m_Loss p := by
  obtain ⟨latency, h₁, n₁⟩ := binary32_from_chars_nearest hl hlr
  obtain ⟨loss, h₂, n₂⟩ := binary32_from_chars_nearest hp hpr
  exact ⟨_, latencyLoss_TryParse_decodes binary32 l p timestamp latency loss hl hp h₁ h₂,
    n₁, n₂⟩

/-- C7 as amended, on the example of the specification:
`- latency: 0.045, loss 0.02` decodes to the latency `12079596 * 2^-28` and the
loss `10737418 * 2^-29`, the floats nearest 0.045 and 0.02. -/
theorem C7_latencyLoss_decodes_nearest_witness :
    NetChannelLatencyLossLine.TryParse binary32 "- latency: 0.045, loss 0.02".toList 7
        = .ok (some ⟨7, ⟨12079596 * 2 ^ 121⟩, ⟨10737418 * 2 ^ 120⟩⟩)
      ∧ Binary32.IsNearest ⟨12079596 * 2 ^ 121⟩ ⟨"0".toList, "045".toList⟩
      ∧ Binary32.IsNearest ⟨10737418 * 2 ^ 120⟩ ⟨"0".toList, "02".toList⟩ := by
  obtain ⟨line, h, n₁, n₂⟩ := C7_latencyLoss_decodes_nearest ⟨"0".toList, "045".toList⟩
    ⟨"0".toList, "02".toList⟩ 7 (by decide) (by decide) (by decide) (by decide)
  have e : NetChannelLatencyLossLine.TryParse binary32 "- latency: 0.045, loss 0.02".toList 7
      = .ok (some ⟨7, ⟨12079596 * 2 ^ 121⟩, ⟨10737418 * 2 ^ 120⟩⟩) := rfl
  have hline : line = ⟨7, ⟨12079596 * 2 ^ 121⟩, ⟨10737418 * 2 ^ 120⟩⟩ := by
    have h' : NetChannelLatencyLossLine.TryParse binary32
        "- latency: 0.045, loss 0.02".toList 7 = .ok (some line) := h
    rw [e] at h'
    exact (Option.some.inj (Except.ok.inj h')).symm
  subst hline
  exact ⟨e, n₁, n₂⟩

/-- C8, refuted as stated: in `- packets: in I/s, out O/s` with `I = 66.7` and
`O = 10^39` written out, both numbers are digits, a dot, digits, but `O` is
above `FLT_MAX`: the conversion fails and `NetChannelPacketsLine::TryParse`
throws instead of returning a line object. -/
theorem C8_packets_out_of_range_throws :
    DecimalText.wellFormed ⟨"66".toList, "7".toList⟩ = true
      ∧ DecimalText.wellFormed ⟨"1000000000000000000000000000000000000000".toList, "0".toList⟩ = true
      ∧ NetChannelPacketsLine.TryParse binary32
          "- packets: in 66.7/s, out 1000000000000000000000000000000000000000.0/s".toList 7
          = .error (.fromCharsFailed "1000000000000000000000000000000000000000.0".toList)
      ∧ ∀ line, NetChannelPacketsLine.TryParse binary32
          "- packets: in 66.7/s, out 1000000000000000000000000000000000000000.0/s".toList 7
          ≠ .ok (some line) := by
  have e : NetChannelPacketsLine.TryParse binary32
      "- packets: in 66.7/s, out 1000000000000000000000000000000000000000.0/s".toList 7
      = .error (.fromCharsFailed "1000000000000000000000000000000000000000.0".toList) := rfl
  refine ⟨rfl, rfl, e, ?_⟩
  intro line h
  rw [e] at h
  cases h

/-- C8 as amended: for every line `- packets: in I/s, out O/s` in which I and O
are decimal floats (digits, a dot, digits) within the range of `float` (zero, or
between `FLT_MIN` and `FLT_MAX`),
`NetChannelPacketsLine::TryParse` returns a line object whose inbound rate is
the float value of I and whose outbound rate is the float value of O (each a
float nearest the decimal); the two are not swapped. -/
theorem C8_packets_decodes_nearest (i o : DecimalText) (timestamp : time_point_t)
    (hi : i.wellFormed = true) (ho : o.wellFormed = true)
    (hir : i.inFloatRange = true) (hor : o.inFloatRange = true) :
    ∃ line : NetChannelPacketsLine binary32,
      NetChannelPacketsLine.TryParse binary32 (packetsText i.text o.text) timestamp
        = .ok (some line)
      ∧ binary32.from_chars i.text = some line.m_InPerSecond
      ∧ binary32.from_chars o.text = some line.m_OutPerSecond
      ∧ Binary32.IsNearest line.m_InPerSecond i
      ∧ Binary32.IsNearest line.m_OutPerSecond o := by
  obtain ⟨inPerSecond, h₁, n₁⟩ := binary32_from_chars_nearest hi hir
  obtain ⟨outPerSecond, h₂, n₂⟩ := binary32_from_chars_nearest ho hor
  exact ⟨_, packets_TryParse_decodes binary32 i o timestamp inPerSecond outPerSecond hi ho
    h₁ h₂, h₁, h₂, n₁, n₂⟩

/-- C8 as amended, on the line `- packets: in 66.7/s, out 33.25/s`: the inbound
rate is `8742502 * 2^-17`, the float nearest 66.7, and the outbound rate is
`33.25 = 8716288 * 2^-18`. -/
theorem C8_packets_decodes_nearest_witness :
    NetChannelPacketsLine.TryParse binary32 "- packets: in 66.7/s, out 33.25/s".toList 7
        = .ok (some ⟨7, ⟨8742502 * 2 ^ 132⟩, ⟨8716288 * 2 ^ 131⟩⟩)
      ∧ Binary32.IsNearest ⟨8742502 * 2 ^ 132⟩ ⟨"66".toList, "7".toList⟩
      ∧ Binary32.IsNearest ⟨8716288 * 2 ^ 131⟩ ⟨"33".toList, "25".toList⟩ := by
  obtain ⟨line, h, -, -, n₁, n₂⟩ := C8_packets_decodes_nearest ⟨"66".toList, "7".toList⟩
    ⟨"33".toList, "25".toList⟩ 7 (by decide) (by decide) (by decide) (by decide)
  have e : NetChannelPacketsLine.TryParse binary32 "- packets: in 66.7/s, out 33.25/s".toList 7
      = .ok (some ⟨7, ⟨8742502 * 2 ^ 132⟩, ⟨8716288 * 2 ^ 131⟩⟩) := rfl
  have hline : line = ⟨7, ⟨8742502 * 2 ^ 132⟩, ⟨8716288 * 2 ^ 131⟩⟩ := by
    have h' : NetChannelPacketsLine.TryParse binary32
        "- packets: in 66.7/s, out 33.25/s".toList 7 = .ok (some line) := h
    rw [e] at h'
    exact (Option.some.inj (Except.ok.inj h')).symm
  subst hline
  exact ⟨e, n₁, n₂⟩

end tf2_bot_detector
